import Mathlib

/-!
Verification of the date/time codec in `src/types/time.rs` of rusqlite
(`ToSql`/`FromSql` implementations for `time::OffsetDateTime`,
`time::PrimitiveDateTime`, `time::Date` and `time::Time`).

The Rust code is embedded shallowly:
* an input cell is a `List Char` (Rust `&str` seen as its characters);
  `byteLen` is the UTF-8 byte length (Rust `s.len()`), while the probes
  `hasT`/`hasZ` are character lookups (`s.chars().nth(10)` /
  `s.chars().last()`), both `Option`-returning;
* the `format_description!` constants become lists of `Item`s and a small
  interpreter (`parseRun` / `formatWith`) models the `time` crate's
  parser/formatter for exactly the components these patterns use:
  zero-padded fixed-width numeric fields with range validation, a
  variable-width (1–9 digit) subsecond field, a sign-mandatory offset
  hour, and literal characters.  Building an `OffsetDateTime` from a
  parse requires the pattern to have produced an offset (the crate's
  `InsufficientInformation`), and building any date validates the
  day-of-month against the Gregorian calendar;
* years are the four textual digits 0–9999 (the only ones the patterns
  can produce or consume).
-/

deriving instance DecidableEq for Except

namespace Rusqlite

/-- UTF-8 encoded size of one character (Rust `char::len_utf8`). -/
def charBytes (c : Char) : Nat :=
  if c.toNat < 0x80 then 1
  else if c.toNat < 0x800 then 2
  else if c.toNat < 0x10000 then 3
  else 4

/-- UTF-8 byte length of the cell, Rust `s.len()`. -/
def byteLen (s : List Char) : Nat := (s.map charBytes).sum

/-- Rust `Some('T') == s.chars().nth(10)`. -/
def hasT (s : List Char) : Bool := s.get? 10 == some 'T'

/-- Rust `Some('Z') == s.chars().last()`. -/
def hasZ (s : List Char) : Bool := s.getLast? == some 'Z'

/-- The fields accumulated while parsing (the `time` crate's `Parsed`).
Missing components keep their defaults; `hasOffset` records whether an
offset component was parsed. -/
structure Parsed where
  year : Int := 0
  month : Nat := 1
  day : Nat := 1
  hour : Nat := 0
  minute : Nat := 0
  second : Nat := 0
  nanos : Nat := 0
  offNeg : Bool := false
  offHour : Nat := 0
  offMinute : Nat := 0
  hasOffset : Bool := false
deriving DecidableEq, Repr

/-- One component of a `format_description!` pattern, restricted to the
components actually occurring in `src/types/time.rs`. -/
inductive Item where
  | year
  | month
  | day
  | hour
  | minute
  | second
  | subsecond
  | offsetHour
  | offsetMinute
  | lit (c : Char)
deriving DecidableEq, Repr

def digitVal? (c : Char) : Option Nat :=
  if 48 ≤ c.toNat ∧ c.toNat ≤ 57 then some (c.toNat - 48) else none

def isDigitCh (c : Char) : Bool := decide (48 ≤ c.toNat ∧ c.toNat ≤ 57)

/-- Two zero-padded digits. -/
def parse2 : List Char → Option (Nat × List Char)
  | a :: b :: r => do
    let x ← digitVal? a
    let y ← digitVal? b
    pure (10 * x + y, r)
  | _ => none

/-- Four zero-padded digits. -/
def parse4 : List Char → Option (Nat × List Char)
  | a :: b :: c :: d :: r => do
    let x ← digitVal? a
    let y ← digitVal? b
    let z ← digitVal? c
    let w ← digitVal? d
    pure (1000 * x + 100 * y + 10 * z + w, r)
  | _ => none

/-- The `[year]` component with its default `repr:full` behaviour: an
optional leading sign (`-` negates, `+` is allowed), then exactly four
zero-padded digits. -/
def parseYearNum (s : List Char) : Option (Int × List Char) :=
  match s with
  | [] => none
  | c :: rest =>
    if c = '-' then (parse4 rest).map fun q => (-(q.1 : Int), q.2)
    else if c = '+' then (parse4 rest).map fun q => ((q.1 : Int), q.2)
    else (parse4 (c :: rest)).map fun q => ((q.1 : Int), q.2)

def digitsVal (ds : List Char) : Nat := ds.foldl (fun a c => 10 * a + (c.toNat - 48)) 0

/-- The `[subsecond]` component with its default `digits:1+` behaviour:
greedily take 1–9 digits and scale to nanoseconds. -/
def parseSubsec (s : List Char) : Option (Nat × List Char) :=
  if 1 ≤ (s.takeWhile isDigitCh).length ∧ (s.takeWhile isDigitCh).length ≤ 9 then
    some (digitsVal (s.takeWhile isDigitCh) * 10 ^ (9 - (s.takeWhile isDigitCh).length),
      s.dropWhile isDigitCh)
  else none

/-- Parse one component, with the crate's parse-time range validation. -/
def parseOne : Item → Parsed → List Char → Option (Parsed × List Char)
  | .year, p, s => do
    let (v, r) ← parseYearNum s
    pure ({ p with year := v }, r)
  | .month, p, s => do
    let (v, r) ← parse2 s
    if 1 ≤ v ∧ v ≤ 12 then pure ({ p with month := v }, r) else none
  | .day, p, s => do
    let (v, r) ← parse2 s
    if 1 ≤ v ∧ v ≤ 31 then pure ({ p with day := v }, r) else none
  | .hour, p, s => do
    let (v, r) ← parse2 s
    if v ≤ 23 then pure ({ p with hour := v }, r) else none
  | .minute, p, s => do
    let (v, r) ← parse2 s
    if v ≤ 59 then pure ({ p with minute := v }, r) else none
  | .second, p, s => do
    let (v, r) ← parse2 s
    if v ≤ 59 then pure ({ p with second := v }, r) else none
  | .subsecond, p, s => do
    let (v, r) ← parseSubsec s
    pure ({ p with nanos := v }, r)
  | .offsetHour, p, s =>
    match s with
    | c :: rest =>
      if c = '+' then do
        let (v, r) ← parse2 rest
        if v ≤ 23 then pure ({ p with offNeg := false, offHour := v, hasOffset := true }, r)
        else none
      else if c = '-' then do
        let (v, r) ← parse2 rest
        if v ≤ 23 then pure ({ p with offNeg := true, offHour := v, hasOffset := true }, r)
        else none
      else none
    | [] => none
  | .offsetMinute, p, s => do
    let (v, r) ← parse2 s
    if v ≤ 59 then pure ({ p with offMinute := v, hasOffset := true }, r) else none
  | .lit c, p, s =>
    match s with
    | d :: r => if d = c then some (p, r) else none
    | [] => none

/-- Run a whole pattern, threading the accumulated fields. -/
def parseRun : List Item → Parsed → List Char → Option (Parsed × List Char)
  | [], p, s => some (p, s)
  | i :: is, p, s => (parseOne i p s).bind fun q => parseRun is q.1 q.2

/-- Parse requiring the whole input to be consumed (the crate rejects
trailing input). -/
def runFormat (items : List Item) (s : List Char) : Option Parsed :=
  match parseRun items {} s with
  | some (p, []) => some p
  | _ => none

/-! The format constants of `src/types/time.rs`, lines 8–44. -/

def PRIMITIVE_DATE_TIME_FORMAT : List Item :=
  [.year, .lit '-', .month, .lit '-', .day, .lit ' ', .hour, .lit ':', .minute, .lit ':', .second]

def PRIMITIVE_DATE_TIME_FORMAT_Z : List Item :=
  PRIMITIVE_DATE_TIME_FORMAT ++ [.lit 'Z']

def PRIMITIVE_DATE_TIME_FORMAT_SUBSECONDS : List Item :=
  PRIMITIVE_DATE_TIME_FORMAT ++ [.lit '.', .subsecond]

def PRIMITIVE_DATE_TIME_FORMAT_SUBSECONDS_Z : List Item :=
  PRIMITIVE_DATE_TIME_FORMAT_SUBSECONDS ++ [.lit 'Z']

def PRIMITIVE_DATE_TIME_FORMAT_T : List Item :=
  [.year, .lit '-', .month, .lit '-', .day, .lit 'T', .hour, .lit ':', .minute, .lit ':', .second]

def PRIMITIVE_DATE_TIME_FORMAT_T_Z : List Item :=
  PRIMITIVE_DATE_TIME_FORMAT_T ++ [.lit 'Z']

def PRIMITIVE_DATE_TIME_FORMAT_T_SUBSECONDS : List Item :=
  PRIMITIVE_DATE_TIME_FORMAT_T ++ [.lit '.', .subsecond]

def PRIMITIVE_DATE_TIME_FORMAT_T_SUBSECONDS_Z : List Item :=
  PRIMITIVE_DATE_TIME_FORMAT_T_SUBSECONDS ++ [.lit 'Z']

/-- `[offset_hour sign:mandatory]:[offset_minute]`. -/
def OFFSET_TAIL : List Item := [.offsetHour, .lit ':', .offsetMinute]

def OFFSET_DATE_TIME_FORMAT : List Item :=
  PRIMITIVE_DATE_TIME_FORMAT ++ OFFSET_TAIL

def OFFSET_DATE_TIME_FORMAT_SUBSECONDS : List Item :=
  PRIMITIVE_DATE_TIME_FORMAT_SUBSECONDS ++ OFFSET_TAIL

def OFFSET_DATE_TIME_FORMAT_T : List Item :=
  PRIMITIVE_DATE_TIME_FORMAT_T ++ OFFSET_TAIL

def OFFSET_DATE_TIME_FORMAT_T_SUBSECONDS : List Item :=
  PRIMITIVE_DATE_TIME_FORMAT_T_SUBSECONDS ++ OFFSET_TAIL

def LEGACY_DATE_TIME_FORMAT : List Item :=
  [.year, .lit '-', .month, .lit '-', .day, .lit ' ', .hour, .lit ':', .minute, .lit ':', .second,
    .lit ':', .subsecond, .lit ' '] ++ OFFSET_TAIL

def DATE_FORMAT : List Item := [.year, .lit '-', .month, .lit '-', .day]

def TIME_FORMAT : List Item := [.hour, .lit ':', .minute]

def TIME_FORMAT_SECONDS : List Item := [.hour, .lit ':', .minute, .lit ':', .second]

def TIME_FORMAT_SECONDS_SUBSECONDS : List Item :=
  TIME_FORMAT_SECONDS ++ [.lit '.', .subsecond]

/-! The four value kinds of the `time` crate used by the codec. -/

structure Date where
  year : Int
  month : Nat
  day : Nat
deriving DecidableEq, Repr

structure Time where
  hour : Nat
  minute : Nat
  second : Nat
  nanos : Nat
deriving DecidableEq, Repr

structure PrimitiveDateTime where
  date : Date
  time : Time
deriving DecidableEq, Repr

/-- Offsets at the codec's hour:minute granularity, stored as signed
total minutes. -/
structure OffsetDateTime where
  dateTime : PrimitiveDateTime
  offMinutes : Int
deriving DecidableEq, Repr

def isLeap (y : Int) : Bool :=
  decide (y % 4 = 0 ∧ (y % 100 ≠ 0 ∨ y % 400 = 0))

def daysInMonth (y : Int) (m : Nat) : Nat :=
  match m with
  | 2 => if isLeap y then 29 else 28
  | 4 => 30
  | 6 => 30
  | 9 => 30
  | 11 => 30
  | _ => 31

/-- `Date::from_calendar_date`: validate the day against month/year. -/
def buildDate (p : Parsed) : Option Date :=
  if p.day ≤ daysInMonth p.year p.month then some ⟨p.year, p.month, p.day⟩ else none

def buildTime (p : Parsed) : Time := ⟨p.hour, p.minute, p.second, p.nanos⟩

def buildPDT (p : Parsed) : Option PrimitiveDateTime :=
  (buildDate p).map (⟨·, buildTime p⟩)

def offsetOf (p : Parsed) : Int :=
  (if p.offNeg then -1 else 1) * ((p.offHour : Int) * 60 + p.offMinute)

/-- Building an `OffsetDateTime` needs an offset from the parsed items
(otherwise the crate fails with `InsufficientInformation`). -/
def buildODT (p : Parsed) : Option OffsetDateTime :=
  if p.hasOffset then (buildPDT p).map (⟨·, offsetOf p⟩) else none

/-- `PrimitiveDateTime::assume_utc`. -/
def assumeUtc (v : PrimitiveDateTime) : OffsetDateTime := ⟨v, 0⟩

def Date.parse (s : List Char) (fmt : List Item) : Option Date :=
  (runFormat fmt s).bind buildDate

def Time.parse (s : List Char) (fmt : List Item) : Option Time :=
  (runFormat fmt s).map buildTime

def PrimitiveDateTime.parse (s : List Char) (fmt : List Item) : Option PrimitiveDateTime :=
  (runFormat fmt s).bind buildPDT

def OffsetDateTime.parse (s : List Char) (fmt : List Item) : Option OffsetDateTime :=
  (runFormat fmt s).bind buildODT

/-- Decode-side errors (`FromSqlError::Other(...)`): the two formatted
"Unknown … format" messages, or a propagated parser diagnostic. -/
inductive DecodeError where
  | unknownDate (s : List Char)
  | unknownTime (s : List Char)
  | parseFailure
deriving DecidableEq, Repr

/-- The textual message carried by the error. -/
def DecodeError.message : DecodeError → List Char
  | .unknownDate s => ("Unknown date format: ").data ++ s
  | .unknownTime s => ("Unknown time format: ").data ++ s
  | .parseFailure => ("parse error").data

/-- The `match (s.len(), has_t, has_z)` of `impl FromSql for
OffsetDateTime` (lines 79–124). -/
def odtClassify (len : Nat) (t z : Bool) : Option (List Item) :=
  if len = 29 ∧ t = false ∧ z = false then some OFFSET_DATE_TIME_FORMAT_SUBSECONDS
  else if len = 29 ∧ t = true ∧ z = false then some OFFSET_DATE_TIME_FORMAT_T_SUBSECONDS
  else if len = 26 ∧ t = false ∧ z = false then some LEGACY_DATE_TIME_FORMAT
  else if len = 25 ∧ t = false ∧ z = false then some OFFSET_DATE_TIME_FORMAT
  else if len = 25 ∧ t = true ∧ z = false then some OFFSET_DATE_TIME_FORMAT_T
  else if len = 24 ∧ t = false ∧ z = true then some PRIMITIVE_DATE_TIME_FORMAT_SUBSECONDS_Z
  else if len = 24 ∧ t = true ∧ z = true then some PRIMITIVE_DATE_TIME_FORMAT_T_SUBSECONDS_Z
  else if len = 24 ∧ t = true ∧ z = false then some PRIMITIVE_DATE_TIME_FORMAT_T_SUBSECONDS
  else if len = 23 ∧ t = false ∧ z = false then some PRIMITIVE_DATE_TIME_FORMAT_SUBSECONDS
  else if len = 23 ∧ t = true ∧ z = false then some PRIMITIVE_DATE_TIME_FORMAT_T_SUBSECONDS
  else if len = 20 ∧ t = false ∧ z = true then some PRIMITIVE_DATE_TIME_FORMAT_Z
  else if len = 20 ∧ t = true ∧ z = true then some PRIMITIVE_DATE_TIME_FORMAT_T_Z
  else if len = 19 ∧ t = false ∧ z = false then some PRIMITIVE_DATE_TIME_FORMAT
  else if len = 19 ∧ t = true ∧ z = false then some PRIMITIVE_DATE_TIME_FORMAT_T
  else none

/-- `impl FromSql for OffsetDateTime`, `column_result` (lines 71–134):
classify, then parse primitively and assume UTC when `s.len() < 25`,
else parse with the offset pattern. -/
def OffsetDateTime.columnResult (s : List Char) : Except DecodeError OffsetDateTime :=
  match odtClassify (byteLen s) (hasT s) (hasZ s) with
  | none => .error (.unknownDate s)
  | some fmt =>
    if byteLen s < 25 then
      match PrimitiveDateTime.parse s fmt with
      | some v => .ok (assumeUtc v)
      | none => .error .parseFailure
    else
      match OffsetDateTime.parse s fmt with
      | some v => .ok v
      | none => .error .parseFailure

/-- The `match (s.len(), has_t, has_z)` of `impl FromSql for
PrimitiveDateTime` (lines 214–226). -/
def pdtClassify (len : Nat) (t z : Bool) : Option (List Item) :=
  if len = 20 ∧ t = true ∧ z = true then some PRIMITIVE_DATE_TIME_FORMAT_T_Z
  else if len = 19 ∧ t = true ∧ z = false then some PRIMITIVE_DATE_TIME_FORMAT_T
  else if len = 20 ∧ t = false ∧ z = true then some PRIMITIVE_DATE_TIME_FORMAT_Z
  else if len = 19 ∧ t = false ∧ z = false then some PRIMITIVE_DATE_TIME_FORMAT
  else if len = 24 ∧ t = true ∧ z = true then some PRIMITIVE_DATE_TIME_FORMAT_T_SUBSECONDS_Z
  else if len = 23 ∧ t = true ∧ z = false then some PRIMITIVE_DATE_TIME_FORMAT_T_SUBSECONDS
  else if len = 24 ∧ t = false ∧ z = true then some PRIMITIVE_DATE_TIME_FORMAT_SUBSECONDS_Z
  else if len = 23 ∧ t = false ∧ z = false then some PRIMITIVE_DATE_TIME_FORMAT_SUBSECONDS
  else none

/-- `impl FromSql for PrimitiveDateTime`, `column_result` (lines 207–231). -/
def PrimitiveDateTime.columnResult (s : List Char) : Except DecodeError PrimitiveDateTime :=
  match pdtClassify (byteLen s) (hasT s) (hasZ s) with
  | none => .error (.unknownDate s)
  | some fmt =>
    match PrimitiveDateTime.parse s fmt with
    | some v => .ok v
    | none => .error .parseFailure

/-- `impl FromSql for Date`, `column_result` (lines 148–158). -/
def Date.columnResult (s : List Char) : Except DecodeError Date :=
  match Date.parse s DATE_FORMAT with
  | some v => .ok v
  | none => .error .parseFailure

/-- The `match s.len()` of `impl FromSql for Time` (lines 176–183). -/
def timeClassify (len : Nat) : Option (List Item) :=
  if len = 5 then some TIME_FORMAT
  else if len = 8 then some TIME_FORMAT_SECONDS
  else if len = 10 ∨ len = 11 ∨ len = 12 then some TIME_FORMAT_SECONDS_SUBSECONDS
  else none

/-- `impl FromSql for Time`, `column_result` (lines 172–188). -/
def Time.columnResult (s : List Char) : Except DecodeError Time :=
  match timeClassify (byteLen s) with
  | none => .error (.unknownTime s)
  | some fmt =>
    match Time.parse s fmt with
    | some v => .ok v
    | none => .error .parseFailure

/-! Encoding (`ToSql`): the crate's formatter for the same components. -/

def digitChar : Nat → Char
  | 0 => '0'
  | 1 => '1'
  | 2 => '2'
  | 3 => '3'
  | 4 => '4'
  | 5 => '5'
  | 6 => '6'
  | 7 => '7'
  | 8 => '8'
  | _ => '9'

/-- `v` zero-padded to `w` digits. -/
def padW : Nat → Nat → List Char
  | 0, _ => []
  | w + 1, v => padW w (v / 10) ++ [digitChar (v % 10)]

/-- The `digits:1+` subsecond width: start from nine digits and strip
trailing zeros down to at least one digit. -/
def stripW : Nat → Nat → Nat × Nat
  | v, 0 => (v, 0)
  | v, 1 => (v, 1)
  | v, w + 2 => if v % 10 = 0 then stripW (v / 10) (w + 1) else (v, w + 2)

def subsecChars (nanos : Nat) : List Char :=
  padW (stripW nanos 9).2 (stripW nanos 9).1

/-- The whole field set a formatter may draw from. -/
structure Fields where
  year : Int
  month : Nat
  day : Nat
  hour : Nat
  minute : Nat
  second : Nat
  nanos : Nat
  offMinutes : Int
deriving DecidableEq, Repr

def formatOne (f : Fields) : Item → List Char
  | .year => (if f.year < 0 then ['-'] else []) ++ padW 4 f.year.natAbs
  | .month => padW 2 f.month
  | .day => padW 2 f.day
  | .hour => padW 2 f.hour
  | .minute => padW 2 f.minute
  | .second => padW 2 f.second
  | .subsecond => subsecChars f.nanos
  | .offsetHour => (if f.offMinutes < 0 then '-' else '+') :: padW 2 (f.offMinutes.natAbs / 60)
  | .offsetMinute => padW 2 (f.offMinutes.natAbs % 60)
  | .lit c => [c]

def formatWith (items : List Item) (f : Fields) : List Char :=
  (items.map (formatOne f)).flatten

def Date.fields (d : Date) : Fields := ⟨d.year, d.month, d.day, 0, 0, 0, 0, 0⟩

def Time.fields (t : Time) : Fields := ⟨0, 0, 0, t.hour, t.minute, t.second, t.nanos, 0⟩

def PrimitiveDateTime.fields (v : PrimitiveDateTime) : Fields :=
  ⟨v.date.year, v.date.month, v.date.day, v.time.hour, v.time.minute, v.time.second,
    v.time.nanos, 0⟩

def OffsetDateTime.fields (v : OffsetDateTime) : Fields :=
  ⟨v.dateTime.date.year, v.dateTime.date.month, v.dateTime.date.day, v.dateTime.time.hour,
    v.dateTime.time.minute, v.dateTime.time.second, v.dateTime.time.nanos, v.offMinutes⟩

/-- `impl ToSql for OffsetDateTime` (lines 47–55). -/
def OffsetDateTime.toSql (v : OffsetDateTime) : List Char :=
  formatWith OFFSET_DATE_TIME_FORMAT v.fields

/-- `impl ToSql for Date` (lines 137–145). -/
def Date.toSql (d : Date) : List Char :=
  formatWith DATE_FORMAT d.fields

/-- `impl ToSql for Time` (lines 161–169). -/
def Time.toSql (t : Time) : List Char :=
  formatWith TIME_FORMAT_SECONDS_SUBSECONDS t.fields

/-- `impl ToSql for PrimitiveDateTime` (lines 192–200). -/
def PrimitiveDateTime.toSql (v : PrimitiveDateTime) : List Char :=
  formatWith PRIMITIVE_DATE_TIME_FORMAT v.fields

/-! Absolute instants, for the `time` crate's instant-based equality of
`OffsetDateTime`. -/

/-- Days since 1970-01-01 in the proleptic Gregorian calendar. -/
def Date.civilDays (d : Date) : Int :=
  let y : Int := if d.month ≤ 2 then d.year - 1 else d.year
  let era : Int := (if 0 ≤ y then y else y - 399) / 400
  let yoe : Int := y - era * 400
  let mp : Int := ((d.month : Int) + 9) % 12
  let doy : Int := (153 * mp + 2) / 5 + (d.day : Int) - 1
  let doe : Int := yoe * 365 + yoe / 4 - yoe / 100 + doy
  era * 146097 + doe - 719468

/-- Nanoseconds since the Unix epoch of the instant an `OffsetDateTime`
denotes (`OffsetDateTime::unix_timestamp_nanos`); two values are equal
in the `time` crate iff these agree. -/
def OffsetDateTime.instantNanos (v : OffsetDateTime) : Int :=
  (v.dateTime.date.civilDays * 86400
      + ((v.dateTime.time.hour * 3600 + v.dateTime.time.minute * 60 + v.dateTime.time.second : Nat) : Int)
      - v.offMinutes * 60) * 1000000000
    + (v.dateTime.time.nanos : Int)

/-- The spec's §4.1 step 3, stated in its own words for comparison with
`OffsetDateTime.columnResult`: only a pattern that carries no explicit
offset and no `Z` (the four plain primitive patterns, lengths
19/23/24-without-Z) is parsed as a naive timestamp and assumed UTC;
every other selected pattern is handed to `OffsetDateTime` parsing
directly. -/
def odtColumnResultSpec (s : List Char) : Except DecodeError OffsetDateTime :=
  match odtClassify (byteLen s) (hasT s) (hasZ s) with
  | none => .error (.unknownDate s)
  | some fmt =>
    if fmt = PRIMITIVE_DATE_TIME_FORMAT ∨ fmt = PRIMITIVE_DATE_TIME_FORMAT_T
        ∨ fmt = PRIMITIVE_DATE_TIME_FORMAT_SUBSECONDS
        ∨ fmt = PRIMITIVE_DATE_TIME_FORMAT_T_SUBSECONDS then
      match PrimitiveDateTime.parse s fmt with
      | some v => .ok (assumeUtc v)
      | none => .error .parseFailure
    else
      match OffsetDateTime.parse s fmt with
      | some v => .ok v
      | none => .error .parseFailure

/-- The fourteen `(length, has_t, has_z)` triples the timezone-aware
decoder's match lists (spec §4.1's table). -/
def odtListed : List (Nat × Bool × Bool) :=
  [(29, false, false), (29, true, false), (26, false, false), (25, false, false),
    (25, true, false), (24, false, true), (24, true, true), (24, true, false),
    (23, false, false), (23, true, false), (20, false, true), (20, true, true),
    (19, false, false), (19, true, false)]

/-- The spec's representable range: a valid Gregorian date with an
unsigned four-digit year (0000–9999), as the canonical timestamp
encodings carry. -/
def validDate (d : Date) : Prop :=
  0 ≤ d.year ∧ d.year ≤ 9999 ∧ 1 ≤ d.month ∧ d.month ≤ 12 ∧ 1 ≤ d.day
    ∧ d.day ≤ daysInMonth d.year d.month

/-- The invariants the crate's `Date` type maintains: a valid Gregorian
date whose year is at most four digits, of either sign (the crate's
`[year]` parser accepts an optional leading sign). -/
def validDateS (d : Date) : Prop :=
  d.year.natAbs ≤ 9999 ∧ 1 ≤ d.month ∧ d.month ≤ 12 ∧ 1 ≤ d.day
    ∧ d.day ≤ daysInMonth d.year d.month

/-- The invariants of the crate's `Time` type. -/
def validTime (t : Time) : Prop :=
  t.hour ≤ 23 ∧ t.minute ≤ 59 ∧ t.second ≤ 59 ∧ t.nanos < 10 ^ 9

instance (d : Date) : Decidable (validDate d) := by unfold validDate; infer_instance

instance (d : Date) : Decidable (validDateS d) := by unfold validDateS; infer_instance

instance (t : Time) : Decidable (validTime t) := by unfold validTime; infer_instance

/-- Bounds every `Parsed` produced by the component parsers satisfies. -/
def ParsedOk (p : Parsed) : Prop :=
  p.year.natAbs ≤ 9999 ∧ 1 ≤ p.month ∧ p.month ≤ 12 ∧ 1 ≤ p.day ∧ p.day ≤ 31
    ∧ p.hour ≤ 23 ∧ p.minute ≤ 59 ∧ p.second ≤ 59 ∧ p.nanos < 10 ^ 9
    ∧ p.offHour ≤ 23 ∧ p.offMinute ≤ 59

/-- Minimal number of characters a component consumes. -/
def itemMinLen : Item → Nat
  | .year => 4
  | .subsecond => 1
  | .offsetHour => 3
  | .lit _ => 1
  | _ => 2

def minLen (items : List Item) : Nat := (items.map itemMinLen).sum

/-- A literal component stands for a single-byte character (true of
every literal in the crate's patterns). -/
def itemAscii : Item → Bool
  | .lit c => charBytes c == 1
  | _ => true

end Rusqlite

namespace Rusqlite

/-! Auxiliary facts about characters, digits and byte lengths. -/

theorem isDigitCh_iff {c : Char} : isDigitCh c = true ↔ 48 ≤ c.toNat ∧ c.toNat ≤ 57 := by
  simp [isDigitCh]

theorem charBytes_of_digit {c : Char} (h : isDigitCh c = true) : charBytes c = 1 := by
  have hc := isDigitCh_iff.mp h
  unfold charBytes
  rw [if_pos (by omega)]

theorem digitVal?_some {c : Char} {x : Nat} (h : digitVal? c = some x) :
    isDigitCh c = true ∧ x ≤ 9 := by
  unfold digitVal? at h
  split_ifs at h with hc
  · cases h
    exact ⟨isDigitCh_iff.mpr hc, by omega⟩

theorem digitVal?_digitChar {k : Nat} (h : k ≤ 9) : digitVal? (digitChar k) = some k := by
  interval_cases k <;> decide

theorem isDigitCh_digitChar (k : Nat) : isDigitCh (digitChar k) = true := by
  match k with
  | 0 => decide
  | 1 => decide
  | 2 => decide
  | 3 => decide
  | 4 => decide
  | 5 => decide
  | 6 => decide
  | 7 => decide
  | 8 => decide
  | n + 9 => show isDigitCh '9' = true; decide

theorem charBytes_digitChar (k : Nat) : charBytes (digitChar k) = 1 :=
  charBytes_of_digit (isDigitCh_digitChar k)

theorem digitChar_ne_Z (k : Nat) : digitChar k ≠ 'Z' := by
  match k with
  | 0 => decide
  | 1 => decide
  | 2 => decide
  | 3 => decide
  | 4 => decide
  | 5 => decide
  | 6 => decide
  | 7 => decide
  | 8 => decide
  | n + 9 => show ('9' : Char) ≠ 'Z'; decide

theorem digitChar_ne_dash (k : Nat) : digitChar k ≠ '-' := by
  match k with
  | 0 => decide
  | 1 => decide
  | 2 => decide
  | 3 => decide
  | 4 => decide
  | 5 => decide
  | 6 => decide
  | 7 => decide
  | 8 => decide
  | n + 9 => show ('9' : Char) ≠ '-'; decide

theorem digitChar_ne_plus (k : Nat) : digitChar k ≠ '+' := by
  match k with
  | 0 => decide
  | 1 => decide
  | 2 => decide
  | 3 => decide
  | 4 => decide
  | 5 => decide
  | 6 => decide
  | 7 => decide
  | 8 => decide
  | n + 9 => show ('9' : Char) ≠ '+'; decide

@[simp] theorem byteLen_nil : byteLen [] = 0 := rfl

@[simp] theorem byteLen_cons (c : Char) (s : List Char) :
    byteLen (c :: s) = charBytes c + byteLen s := by
  simp [byteLen]

@[simp] theorem byteLen_append (s t : List Char) :
    byteLen (s ++ t) = byteLen s + byteLen t := by
  simp [byteLen]

theorem one_le_charBytes (c : Char) : 1 ≤ charBytes c := by
  unfold charBytes
  split_ifs <;> omega

theorem length_le_byteLen (s : List Char) : s.length ≤ byteLen s := by
  induction s with
  | nil => simp
  | cons c t ih =>
    have := one_le_charBytes c
    simp only [List.length_cons, byteLen_cons]
    omega

theorem byteLen_eq_length_of_digits {s : List Char}
    (h : ∀ c ∈ s, isDigitCh c = true) : byteLen s = s.length := by
  induction s with
  | nil => simp
  | cons c t ih =>
    rw [byteLen_cons, charBytes_of_digit (h c (by simp)), List.length_cons,
      ih fun c hc => h c (by simp [hc])]
    omega

/-! Zero padding and its inversion. -/

theorem padW_two (v : Nat) : padW 2 v = [digitChar (v / 10 % 10), digitChar (v % 10)] := by
  simp [padW, Nat.div_div_eq_div_mul]

theorem padW_four (v : Nat) :
    padW 4 v = [digitChar (v / 1000 % 10), digitChar (v / 100 % 10), digitChar (v / 10 % 10),
      digitChar (v % 10)] := by
  simp [padW, Nat.div_div_eq_div_mul]

theorem padW_digits (w v : Nat) : ∀ c ∈ padW w v, isDigitCh c = true := by
  induction w generalizing v with
  | zero => simp [padW]
  | succ w ih =>
    intro c hc
    simp only [padW, List.mem_append, List.mem_singleton] at hc
    rcases hc with hc | hc
    · exact ih _ c hc
    · rw [hc]
      exact isDigitCh_digitChar _

theorem padW_length (w v : Nat) : (padW w v).length = w := by
  induction w generalizing v with
  | zero => simp [padW]
  | succ w ih => simp [padW, ih]

theorem byteLen_padW (w v : Nat) : byteLen (padW w v) = w := by
  rw [byteLen_eq_length_of_digits (padW_digits w v), padW_length]

theorem parse2_padW {v : Nat} (h : v ≤ 99) (r : List Char) :
    parse2 (padW 2 v ++ r) = some (v, r) := by
  rw [padW_two]
  have e1 := digitVal?_digitChar (show v / 10 % 10 ≤ 9 by omega)
  have e2 := digitVal?_digitChar (show v % 10 ≤ 9 by omega)
  simp [parse2, e1, e2]
  omega

theorem parse4_padW {v : Nat} (h : v ≤ 9999) (r : List Char) :
    parse4 (padW 4 v ++ r) = some (v, r) := by
  rw [padW_four]
  have e1 := digitVal?_digitChar (show v / 1000 % 10 ≤ 9 by omega)
  have e2 := digitVal?_digitChar (show v / 100 % 10 ≤ 9 by omega)
  have e3 := digitVal?_digitChar (show v / 10 % 10 ≤ 9 by omega)
  have e4 := digitVal?_digitChar (show v % 10 ≤ 9 by omega)
  simp [parse4, e1, e2, e3, e4]
  omega

theorem parseYearNum_pos {v : Nat} (hv : v ≤ 9999) (r : List Char) :
    parseYearNum (padW 4 v ++ r) = some ((v : Int), r) := by
  have h4 := parse4_padW hv r
  rw [padW_four] at h4 ⊢
  simp only [List.cons_append] at h4 ⊢
  simp only [parseYearNum]
  rw [if_neg (digitChar_ne_dash _), if_neg (digitChar_ne_plus _), h4]
  rfl

theorem parseYearNum_neg {v : Nat} (hv : v ≤ 9999) (r : List Char) :
    parseYearNum ('-' :: (padW 4 v ++ r)) = some (-(v : Int), r) := by
  simp only [parseYearNum]
  rw [if_pos trivial, parse4_padW hv]
  rfl

theorem digitChar_toNat {k : Nat} (h : k ≤ 9) : (digitChar k).toNat = 48 + k := by
  interval_cases k <;> decide

theorem digitsVal_append (ds : List Char) (c : Char) :
    digitsVal (ds ++ [c]) = 10 * digitsVal ds + (c.toNat - 48) := by
  simp [digitsVal, List.foldl_append]

theorem digitsVal_aux {ds : List Char} (h : ∀ c ∈ ds, isDigitCh c = true) :
    ∀ a, ds.foldl (fun a c => 10 * a + (c.toNat - 48)) a < (a + 1) * 10 ^ ds.length := by
  induction ds with
  | nil => intro a; simp
  | cons c t ih =>
    intro a
    have hc := isDigitCh_iff.mp (h c (by simp))
    have ht := ih fun x hx => h x (by simp [hx])
    have h1 := ht (10 * a + (c.toNat - 48))
    simp only [List.foldl_cons, List.length_cons]
    calc t.foldl (fun a c => 10 * a + (c.toNat - 48)) (10 * a + (c.toNat - 48))
        < (10 * a + (c.toNat - 48) + 1) * 10 ^ t.length := h1
      _ ≤ ((a + 1) * 10) * 10 ^ t.length := by
          have : 10 * a + (c.toNat - 48) + 1 ≤ (a + 1) * 10 := by omega
          exact Nat.mul_le_mul_right _ this
      _ = (a + 1) * 10 ^ (t.length + 1) := by ring

theorem digitsVal_lt {ds : List Char} (h : ∀ c ∈ ds, isDigitCh c = true) :
    digitsVal ds < 10 ^ ds.length := by
  have := digitsVal_aux h 0
  simpa [digitsVal] using this

theorem digitsVal_padW {w v : Nat} (h : v < 10 ^ w) : digitsVal (padW w v) = v := by
  induction w generalizing v with
  | zero =>
    simp [padW, digitsVal]
    omega
  | succ w ih =>
    have hv : v / 10 < 10 ^ w := by
      rw [Nat.div_lt_iff_lt_mul (by omega)]
      calc v < 10 ^ (w + 1) := h
        _ = 10 ^ w * 10 := by ring
    rw [show padW (w + 1) v = padW w (v / 10) ++ [digitChar (v % 10)] from rfl,
      digitsVal_append, ih hv, digitChar_toNat (show v % 10 ≤ 9 by omega)]
    omega

theorem parse2_inv {s : List Char} {v : Nat} {r : List Char} (h : parse2 s = some (v, r)) :
    ∃ a b, s = a :: b :: r ∧ isDigitCh a = true ∧ isDigitCh b = true ∧ v ≤ 99 := by
  match s with
  | [] => simp [parse2] at h
  | [a] => simp [parse2] at h
  | a :: b :: t =>
    cases hx : digitVal? a with
    | none => simp [parse2, hx] at h
    | some x =>
      cases hy : digitVal? b with
      | none => simp [parse2, hx, hy] at h
      | some y =>
        simp only [parse2, hx, hy, Option.bind_eq_bind, Option.some_bind, Option.pure_def,
          Option.some.injEq, Prod.mk.injEq] at h
        obtain ⟨hv, hr⟩ := h
        have hxd := digitVal?_some hx
        have hyd := digitVal?_some hy
        exact ⟨a, b, by rw [hr], hxd.1, hyd.1, by omega⟩

theorem parse4_inv {s : List Char} {v : Nat} {r : List Char} (h : parse4 s = some (v, r)) :
    ∃ a b c d, s = a :: b :: c :: d :: r ∧ isDigitCh a = true ∧ isDigitCh b = true
      ∧ isDigitCh c = true ∧ isDigitCh d = true ∧ v ≤ 9999 := by
  match s with
  | [] => simp [parse4] at h
  | [a] => simp [parse4] at h
  | [a, b] => simp [parse4] at h
  | [a, b, c] => simp [parse4] at h
  | a :: b :: c :: d :: t =>
    cases hx : digitVal? a with
    | none => simp [parse4, hx] at h
    | some x =>
      cases hy : digitVal? b with
      | none => simp [parse4, hx, hy] at h
      | some y =>
        cases hz : digitVal? c with
        | none => simp [parse4, hx, hy, hz] at h
        | some z =>
          cases hw : digitVal? d with
          | none => simp [parse4, hx, hy, hz, hw] at h
          | some w =>
            simp only [parse4, hx, hy, hz, hw, Option.bind_eq_bind, Option.some_bind,
              Option.pure_def, Option.some.injEq, Prod.mk.injEq] at h
            obtain ⟨hv, hr⟩ := h
            have hxd := digitVal?_some hx
            have hyd := digitVal?_some hy
            have hzd := digitVal?_some hz
            have hwd := digitVal?_some hw
            exact ⟨a, b, c, d, by rw [hr], hxd.1, hyd.1, hzd.1, hwd.1, by omega⟩

theorem mem_takeWhile {p : Char → Bool} {l : List Char} {a : Char}
    (h : a ∈ l.takeWhile p) : p a = true := by
  induction l with
  | nil => simp [List.takeWhile] at h
  | cons c t ih =>
    by_cases hc : p c = true
    · rw [List.takeWhile_cons_of_pos hc] at h
      rcases List.mem_cons.mp h with h | h
      · rw [h]; exact hc
      · exact ih h
    · rw [List.takeWhile_cons_of_neg hc] at h
      simp at h

theorem takeWhile_eq_self_of_all {p : Char → Bool} {l : List Char}
    (h : ∀ c ∈ l, p c = true) : l.takeWhile p = l ∧ l.dropWhile p = [] := by
  induction l with
  | nil => simp
  | cons c t ih =>
    have hc := h c (by simp)
    have ht := ih fun x hx => h x (by simp [hx])
    rw [List.takeWhile_cons_of_pos hc, List.dropWhile_cons_of_pos hc]
    exact ⟨by rw [ht.1], ht.2⟩

theorem parseSubsec_inv {s : List Char} {v : Nat} {r : List Char}
    (h : parseSubsec s = some (v, r)) :
    ∃ ds, s = ds ++ r ∧ (∀ c ∈ ds, isDigitCh c = true) ∧ 1 ≤ ds.length ∧ ds.length ≤ 9
      ∧ v = digitsVal ds * 10 ^ (9 - ds.length) := by
  unfold parseSubsec at h
  split_ifs at h with hl
  simp only [Option.some.injEq, Prod.mk.injEq] at h
  obtain ⟨hv, hr⟩ := h
  refine ⟨s.takeWhile isDigitCh, ?_, fun c hc => mem_takeWhile hc, hl.1, hl.2, hv.symm⟩
  rw [← hr]
  exact (List.takeWhile_append_dropWhile isDigitCh s).symm

theorem parseSubsec_pad {k v : Nat} (h1 : 1 ≤ k) (h2 : k ≤ 9) (hv : v < 10 ^ k) :
    parseSubsec (padW k v) = some (v * 10 ^ (9 - k), []) := by
  have hall := padW_digits k v
  have hw := takeWhile_eq_self_of_all hall
  unfold parseSubsec
  rw [hw.1, hw.2, padW_length, if_pos ⟨h1, h2⟩, digitsVal_padW hv]

theorem stripW_spec : ∀ w v, 1 ≤ w → v < 10 ^ w →
    (stripW v w).1 * 10 ^ (w - (stripW v w).2) = v ∧ 1 ≤ (stripW v w).2
      ∧ (stripW v w).2 ≤ w ∧ (stripW v w).1 < 10 ^ (stripW v w).2 := by
  intro w
  induction w using Nat.strong_induction_on with
  | _ w ih =>
    match w with
    | 0 => intro v h1 _; exact absurd h1 (by omega)
    | 1 =>
      intro v _ hv
      exact ⟨by simp [stripW], by simp [stripW], by simp [stripW], by simpa [stripW] using hv⟩
    | w + 2 =>
      intro v _ hv
      by_cases h0 : v % 10 = 0
      · have hrec : stripW v (w + 2) = stripW (v / 10) (w + 1) := by
          rw [show stripW v (w + 2) = if v % 10 = 0 then stripW (v / 10) (w + 1)
            else (v, w + 2) from rfl, if_pos h0]
        have hv10 : v / 10 < 10 ^ (w + 1) := by
          rw [Nat.div_lt_iff_lt_mul (by omega)]
          calc v < 10 ^ (w + 2) := hv
            _ = 10 ^ (w + 1) * 10 := by ring
        obtain ⟨e1, e2, e3, e4⟩ := ih (w + 1) (by omega) (v / 10) (by omega) hv10
        rw [hrec]
        refine ⟨?_, e2, by omega, e4⟩
        have hsub : w + 2 - (stripW (v / 10) (w + 1)).2
            = (w + 1 - (stripW (v / 10) (w + 1)).2) + 1 := by omega
        rw [hsub, pow_succ, ← Nat.mul_assoc, e1]
        omega
      · have hrec : stripW v (w + 2) = (v, w + 2) := by
          rw [show stripW v (w + 2) = if v % 10 = 0 then stripW (v / 10) (w + 1)
            else (v, w + 2) from rfl, if_neg h0]
        rw [hrec]
        exact ⟨by simp, by omega, le_refl _, hv⟩

theorem stripW_snd_le : ∀ w v, (stripW v w).2 ≤ w := by
  intro w
  induction w using Nat.strong_induction_on with
  | _ w ih =>
    match w with
    | 0 => intro v; simp [stripW]
    | 1 => intro v; simp [stripW]
    | w + 2 =>
      intro v
      rw [show stripW v (w + 2) = if v % 10 = 0 then stripW (v / 10) (w + 1)
        else (v, w + 2) from rfl]
      split_ifs with h0
      · have := ih (w + 1) (by omega) (v / 10)
        omega
      · simp

theorem stripW_le : ∀ w v m, 1 ≤ m → m ≤ w → 10 ^ (w - m) ∣ v → (stripW v w).2 ≤ m := by
  intro w
  induction w using Nat.strong_induction_on with
  | _ w ih =>
    match w with
    | 0 => intro v m _ h2 _; omega
    | 1 => intro v m h1 _ _; simpa [stripW] using h1
    | w + 2 =>
      intro v m h1 h2 hdvd
      by_cases hm : m = w + 2
      · rw [hm]
        exact stripW_snd_le (w + 2) v
      · have hmlt : m ≤ w + 1 := by omega
        have h0 : v % 10 = 0 := by
          have h10 : (10 : Nat) ∣ v := by
            refine dvd_trans ?_ hdvd
            have : (10 : Nat) ^ 1 ∣ 10 ^ (w + 2 - m) := pow_dvd_pow 10 (by omega)
            simpa using this
          omega
        have hdvd10 : 10 ^ (w + 1 - m) ∣ v / 10 := by
          obtain ⟨t, ht⟩ := hdvd
          refine ⟨t, ?_⟩
          have h9 : (10 : Nat) ^ (w + 2 - m) = 10 * 10 ^ (w + 1 - m) := by
            rw [← pow_succ']
            congr 1
            omega
          rw [ht, h9, Nat.mul_assoc]
          exact Nat.mul_div_cancel_left _ (by omega)
        rw [show stripW v (w + 2) = if v % 10 = 0 then stripW (v / 10) (w + 1)
          else (v, w + 2) from rfl, if_pos h0]
        exact ih (w + 1) (by omega) (v / 10) m h1 (by omega) hdvd10

/-! Appending input past a successful parse does not disturb it (the
appended character must not be a digit, so the greedy subsecond field
cannot grow into it). -/

theorem takeWhile_append_nondigit {c : Char} (hc : isDigitCh c = false) (s : List Char) :
    (s ++ [c]).takeWhile isDigitCh = s.takeWhile isDigitCh := by
  induction s with
  | nil => simp [List.takeWhile, hc]
  | cons a t ih =>
    by_cases ha : isDigitCh a = true
    · rw [List.cons_append, List.takeWhile_cons_of_pos ha, List.takeWhile_cons_of_pos ha, ih]
    · rw [List.cons_append, List.takeWhile_cons_of_neg ha, List.takeWhile_cons_of_neg ha]

theorem dropWhile_append_nondigit {c : Char} (hc : isDigitCh c = false) (s : List Char) :
    (s ++ [c]).dropWhile isDigitCh = s.dropWhile isDigitCh ++ [c] := by
  induction s with
  | nil => simp [List.dropWhile, hc]
  | cons a t ih =>
    by_cases ha : isDigitCh a = true
    · rw [List.cons_append, List.dropWhile_cons_of_pos ha, List.dropWhile_cons_of_pos ha, ih]
    · rw [List.cons_append, List.dropWhile_cons_of_neg ha, List.dropWhile_cons_of_neg ha,
        List.cons_append]

theorem parse2_append (t : List Char) {s : List Char} {v : Nat} {r : List Char}
    (h : parse2 s = some (v, r)) : parse2 (s ++ t) = some (v, r ++ t) := by
  match s with
  | [] => simp [parse2] at h
  | [a] => simp [parse2] at h
  | a :: b :: u =>
    cases hx : digitVal? a with
    | none => simp [parse2, hx] at h
    | some x =>
      cases hy : digitVal? b with
      | none => simp [parse2, hx, hy] at h
      | some y =>
        simp only [parse2, hx, hy, Option.bind_eq_bind, Option.some_bind, Option.pure_def,
          Option.some.injEq, Prod.mk.injEq] at h
        obtain ⟨hv, hr⟩ := h
        simp only [List.cons_append, parse2, hx, hy, Option.bind_eq_bind, Option.some_bind,
          Option.pure_def, Option.some.injEq, Prod.mk.injEq]
        exact ⟨hv, by rw [hr]⟩

theorem parse4_append (t : List Char) {s : List Char} {v : Nat} {r : List Char}
    (h : parse4 s = some (v, r)) : parse4 (s ++ t) = some (v, r ++ t) := by
  match s with
  | [] => simp [parse4] at h
  | [a] => simp [parse4] at h
  | [a, b] => simp [parse4] at h
  | [a, b, c] => simp [parse4] at h
  | a :: b :: c :: d :: u =>
    cases hx : digitVal? a with
    | none => simp [parse4, hx] at h
    | some x =>
      cases hy : digitVal? b with
      | none => simp [parse4, hx, hy] at h
      | some y =>
        cases hz : digitVal? c with
        | none => simp [parse4, hx, hy, hz] at h
        | some z =>
          cases hw : digitVal? d with
          | none => simp [parse4, hx, hy, hz, hw] at h
          | some w =>
            simp only [parse4, hx, hy, hz, hw, Option.bind_eq_bind, Option.some_bind,
              Option.pure_def, Option.some.injEq, Prod.mk.injEq] at h
            obtain ⟨hv, hr⟩ := h
            simp only [List.cons_append, parse4, hx, hy, hz, hw, Option.bind_eq_bind,
              Option.some_bind, Option.pure_def, Option.some.injEq, Prod.mk.injEq]
            exact ⟨hv, by rw [hr]⟩

theorem parseYearNum_append (t : List Char) {s : List Char} {v : Int} {r : List Char}
    (h : parseYearNum s = some (v, r)) : parseYearNum (s ++ t) = some (v, r ++ t) := by
  match s with
  | [] => simp [parseYearNum] at h
  | c :: rest =>
    simp only [List.cons_append]
    simp only [parseYearNum] at h ⊢
    by_cases h1 : c = '-'
    · rw [if_pos h1] at h ⊢
      cases hp : parse4 rest with
      | none => rw [hp] at h; simp at h
      | some x =>
        obtain ⟨n, r0⟩ := x
        rw [hp] at h
        simp only [Option.map_some', Option.some.injEq, Prod.mk.injEq] at h
        rw [parse4_append t hp]
        simp only [Option.map_some', Option.some.injEq, Prod.mk.injEq]
        exact ⟨h.1, by rw [h.2]⟩
    · by_cases h2 : c = '+'
      · rw [if_neg h1, if_pos h2] at h ⊢
        cases hp : parse4 rest with
        | none => rw [hp] at h; simp at h
        | some x =>
          obtain ⟨n, r0⟩ := x
          rw [hp] at h
          simp only [Option.map_some', Option.some.injEq, Prod.mk.injEq] at h
          rw [parse4_append t hp]
          simp only [Option.map_some', Option.some.injEq, Prod.mk.injEq]
          exact ⟨h.1, by rw [h.2]⟩
      · rw [if_neg h1, if_neg h2] at h ⊢
        cases hp : parse4 (c :: rest) with
        | none => rw [hp] at h; simp at h
        | some x =>
          obtain ⟨n, r0⟩ := x
          rw [hp] at h
          simp only [Option.map_some', Option.some.injEq, Prod.mk.injEq] at h
          have h4 := parse4_append t hp
          simp only [List.cons_append] at h4
          rw [h4]
          simp only [Option.map_some', Option.some.injEq, Prod.mk.injEq]
          exact ⟨h.1, by rw [h.2]⟩

theorem parseYearNum_inv {s : List Char} {v : Int} {r : List Char}
    (h : parseYearNum s = some (v, r)) :
    v.natAbs ≤ 9999 ∧ ∃ t, s = t ++ r ∧ byteLen t = t.length ∧ 4 ≤ t.length := by
  match s with
  | [] => simp [parseYearNum] at h
  | c :: rest =>
    simp only [parseYearNum] at h
    by_cases h1 : c = '-'
    · rw [if_pos h1] at h
      cases hp : parse4 rest with
      | none => rw [hp] at h; simp at h
      | some x =>
        obtain ⟨n, r0⟩ := x
        rw [hp] at h
        simp only [Option.map_some', Option.some.injEq, Prod.mk.injEq] at h
        obtain ⟨hv, hr⟩ := h
        obtain ⟨a, b, cc, dd, hs, da, db, dc2, dd2, hn⟩ := parse4_inv hp
        refine ⟨by rw [← hv]; simpa using hn, c :: [a, b, cc, dd], ?_, ?_, by simp⟩
        · rw [hs, hr] at *
          simp
        · rw [h1]
          have hdash : charBytes '-' = 1 := by decide
          simp [hdash, charBytes_of_digit da, charBytes_of_digit db, charBytes_of_digit dc2,
            charBytes_of_digit dd2]
    · by_cases h2 : c = '+'
      · rw [if_neg h1, if_pos h2] at h
        cases hp : parse4 rest with
        | none => rw [hp] at h; simp at h
        | some x =>
          obtain ⟨n, r0⟩ := x
          rw [hp] at h
          simp only [Option.map_some', Option.some.injEq, Prod.mk.injEq] at h
          obtain ⟨hv, hr⟩ := h
          obtain ⟨a, b, cc, dd, hs, da, db, dc2, dd2, hn⟩ := parse4_inv hp
          refine ⟨by rw [← hv]; simpa using hn, c :: [a, b, cc, dd], ?_, ?_, by simp⟩
          · rw [hs, hr] at *
            simp
          · rw [h2]
            have hplus : charBytes '+' = 1 := by decide
            simp [hplus, charBytes_of_digit da, charBytes_of_digit db, charBytes_of_digit dc2,
              charBytes_of_digit dd2]
      · rw [if_neg h1, if_neg h2] at h
        cases hp : parse4 (c :: rest) with
        | none => rw [hp] at h; simp at h
        | some x =>
          obtain ⟨n, r0⟩ := x
          rw [hp] at h
          simp only [Option.map_some', Option.some.injEq, Prod.mk.injEq] at h
          obtain ⟨hv, hr⟩ := h
          obtain ⟨a, b, cc, dd, hs, da, db, dc2, dd2, hn⟩ := parse4_inv hp
          refine ⟨by rw [← hv]; simpa using hn, [a, b, cc, dd], ?_, ?_, by simp⟩
          · rw [hs, hr] at *
            simp
          · simp [charBytes_of_digit da, charBytes_of_digit db, charBytes_of_digit dc2,
              charBytes_of_digit dd2]

theorem parseSubsec_append {c : Char} (hc : isDigitCh c = false) {s : List Char} {v : Nat}
    {r : List Char} (h : parseSubsec s = some (v, r)) :
    parseSubsec (s ++ [c]) = some (v, r ++ [c]) := by
  unfold parseSubsec at h ⊢
  rw [takeWhile_append_nondigit hc, dropWhile_append_nondigit hc]
  split_ifs at h with hl
  rw [if_pos hl]
  simp only [Option.some.injEq, Prod.mk.injEq] at h ⊢
  exact ⟨h.1, by rw [h.2]⟩

theorem parseOne_extend {i : Item} {p : Parsed} {s : List Char} {q : Parsed} {r : List Char}
    {c : Char} (hc : isDigitCh c = false) (h : parseOne i p s = some (q, r)) :
    parseOne i p (s ++ [c]) = some (q, r ++ [c]) := by
  cases i with
  | year =>
    cases hp : parseYearNum s with
    | none => simp [parseOne, hp] at h
    | some x =>
      obtain ⟨v, r0⟩ := x
      simp only [parseOne, hp, Option.bind_eq_bind, Option.some_bind, Option.pure_def,
        Option.some.injEq, Prod.mk.injEq] at h
      simp only [parseOne, parseYearNum_append [c] hp, Option.bind_eq_bind, Option.some_bind,
        Option.pure_def, Option.some.injEq, Prod.mk.injEq]
      exact ⟨h.1, by rw [h.2]⟩
  | month =>
    cases hp : parse2 s with
    | none => simp [parseOne, hp] at h
    | some x =>
      obtain ⟨v, r0⟩ := x
      simp only [parseOne, hp, Option.bind_eq_bind, Option.some_bind, Option.pure_def] at h
      simp only [parseOne, parse2_append [c] hp, Option.bind_eq_bind, Option.some_bind,
        Option.pure_def]
      split_ifs at h with hcond
      rw [if_pos hcond]
      simp only [Option.some.injEq, Prod.mk.injEq] at h ⊢
      exact ⟨h.1, by rw [h.2]⟩
  | day =>
    cases hp : parse2 s with
    | none => simp [parseOne, hp] at h
    | some x =>
      obtain ⟨v, r0⟩ := x
      simp only [parseOne, hp, Option.bind_eq_bind, Option.some_bind, Option.pure_def] at h
      simp only [parseOne, parse2_append [c] hp, Option.bind_eq_bind, Option.some_bind,
        Option.pure_def]
      split_ifs at h with hcond
      rw [if_pos hcond]
      simp only [Option.some.injEq, Prod.mk.injEq] at h ⊢
      exact ⟨h.1, by rw [h.2]⟩
  | hour =>
    cases hp : parse2 s with
    | none => simp [parseOne, hp] at h
    | some x =>
      obtain ⟨v, r0⟩ := x
      simp only [parseOne, hp, Option.bind_eq_bind, Option.some_bind, Option.pure_def] at h
      simp only [parseOne, parse2_append [c] hp, Option.bind_eq_bind, Option.some_bind,
        Option.pure_def]
      split_ifs at h with hcond
      rw [if_pos hcond]
      simp only [Option.some.injEq, Prod.mk.injEq] at h ⊢
      exact ⟨h.1, by rw [h.2]⟩
  | minute =>
    cases hp : parse2 s with
    | none => simp [parseOne, hp] at h
    | some x =>
      obtain ⟨v, r0⟩ := x
      simp only [parseOne, hp, Option.bind_eq_bind, Option.some_bind, Option.pure_def] at h
      simp only [parseOne, parse2_append [c] hp, Option.bind_eq_bind, Option.some_bind,
        Option.pure_def]
      split_ifs at h with hcond
      rw [if_pos hcond]
      simp only [Option.some.injEq, Prod.mk.injEq] at h ⊢
      exact ⟨h.1, by rw [h.2]⟩
  | second =>
    cases hp : parse2 s with
    | none => simp [parseOne, hp] at h
    | some x =>
      obtain ⟨v, r0⟩ := x
      simp only [parseOne, hp, Option.bind_eq_bind, Option.some_bind, Option.pure_def] at h
      simp only [parseOne, parse2_append [c] hp, Option.bind_eq_bind, Option.some_bind,
        Option.pure_def]
      split_ifs at h with hcond
      rw [if_pos hcond]
      simp only [Option.some.injEq, Prod.mk.injEq] at h ⊢
      exact ⟨h.1, by rw [h.2]⟩
  | subsecond =>
    cases hp : parseSubsec s with
    | none => simp [parseOne, hp] at h
    | some x =>
      obtain ⟨v, r0⟩ := x
      simp only [parseOne, hp, Option.bind_eq_bind, Option.some_bind, Option.pure_def,
        Option.some.injEq, Prod.mk.injEq] at h
      simp only [parseOne, parseSubsec_append hc hp, Option.bind_eq_bind, Option.some_bind,
        Option.pure_def, Option.some.injEq, Prod.mk.injEq]
      exact ⟨h.1, by rw [h.2]⟩
  | offsetHour =>
    match s with
    | [] => simp [parseOne] at h
    | a :: rest =>
      simp only [parseOne] at h
      by_cases hpl : a = '+'
      · rw [if_pos hpl] at h
        cases hp : parse2 rest with
        | none => rw [hp] at h; simp at h
        | some x =>
          obtain ⟨v, r0⟩ := x
          rw [hp] at h
          simp only [Option.bind_eq_bind, Option.some_bind, Option.pure_def] at h
          split_ifs at h with hle
          simp only [Option.some.injEq, Prod.mk.injEq] at h
          simp only [List.cons_append, parseOne]
          rw [if_pos hpl, parse2_append [c] hp]
          simp only [Option.bind_eq_bind, Option.some_bind, Option.pure_def, if_pos hle,
            Option.some.injEq, Prod.mk.injEq]
          exact ⟨h.1, by rw [h.2]⟩
      · by_cases hmn : a = '-'
        · rw [if_neg hpl, if_pos hmn] at h
          cases hp : parse2 rest with
          | none => rw [hp] at h; simp at h
          | some x =>
            obtain ⟨v, r0⟩ := x
            rw [hp] at h
            simp only [Option.bind_eq_bind, Option.some_bind, Option.pure_def] at h
            split_ifs at h with hle
            simp only [Option.some.injEq, Prod.mk.injEq] at h
            simp only [List.cons_append, parseOne]
            rw [if_neg hpl, if_pos hmn, parse2_append [c] hp]
            simp only [Option.bind_eq_bind, Option.some_bind, Option.pure_def, if_pos hle,
              Option.some.injEq, Prod.mk.injEq]
            exact ⟨h.1, by rw [h.2]⟩
        · rw [if_neg hpl, if_neg hmn] at h
          exact absurd h (by simp)
  | offsetMinute =>
    cases hp : parse2 s with
    | none => simp [parseOne, hp] at h
    | some x =>
      obtain ⟨v, r0⟩ := x
      simp only [parseOne, hp, Option.bind_eq_bind, Option.some_bind, Option.pure_def] at h
      simp only [parseOne, parse2_append [c] hp, Option.bind_eq_bind, Option.some_bind,
        Option.pure_def]
      split_ifs at h with hcond
      rw [if_pos hcond]
      simp only [Option.some.injEq, Prod.mk.injEq] at h ⊢
      exact ⟨h.1, by rw [h.2]⟩
  | lit d =>
    match s with
    | [] => simp [parseOne] at h
    | a :: rest =>
      simp only [parseOne] at h
      split_ifs at h with hcond
      simp only [Option.some.injEq, Prod.mk.injEq] at h
      simp only [List.cons_append, parseOne, if_pos hcond, Option.some.injEq, Prod.mk.injEq]
      exact ⟨h.1, by rw [h.2]⟩

theorem parseRun_extend {items : List Item} {p : Parsed} {s : List Char} {q : Parsed}
    {r : List Char} {c : Char} (hc : isDigitCh c = false)
    (h : parseRun items p s = some (q, r)) :
    parseRun items p (s ++ [c]) = some (q, r ++ [c]) := by
  induction items generalizing p s with
  | nil =>
    simp only [parseRun, Option.some.injEq, Prod.mk.injEq] at h ⊢
    exact ⟨h.1, by rw [h.2]⟩
  | cons i is ih =>
    simp only [parseRun] at h ⊢
    cases hp : parseOne i p s with
    | none => rw [hp] at h; simp at h
    | some x =>
      obtain ⟨p2, r2⟩ := x
      rw [hp] at h
      simp only [Option.some_bind] at h
      rw [parseOne_extend hc hp]
      simp only [Option.some_bind]
      exact ih h

theorem parseRun_append (as bs : List Item) (p : Parsed) (s : List Char) :
    parseRun (as ++ bs) p s = (parseRun as p s).bind fun x => parseRun bs x.1 x.2 := by
  induction as generalizing p s with
  | nil => simp [parseRun]
  | cons i as ih =>
    simp only [List.cons_append, parseRun]
    cases hp : parseOne i p s with
    | none => simp
    | some x => simp [ih]

/-! Inversion of `parseOne`, item by item. -/

theorem parseOne_year_inv {p : Parsed} {s : List Char} {q : Parsed} {r : List Char}
    (h : parseOne .year p s = some (q, r)) :
    ∃ v, parseYearNum s = some (v, r) ∧ v.natAbs ≤ 9999 ∧ q = { p with year := v } := by
  cases hp : parseYearNum s with
  | none => simp [parseOne, hp] at h
  | some x =>
    obtain ⟨v, r0⟩ := x
    simp only [parseOne, hp, Option.bind_eq_bind, Option.some_bind, Option.pure_def,
      Option.some.injEq, Prod.mk.injEq] at h
    exact ⟨v, by rw [← h.2], (parseYearNum_inv hp).1, h.1.symm⟩

theorem parseOne_month_inv {p : Parsed} {s : List Char} {q : Parsed} {r : List Char}
    (h : parseOne .month p s = some (q, r)) :
    ∃ v, parse2 s = some (v, r) ∧ 1 ≤ v ∧ v ≤ 12 ∧ q = { p with month := v } := by
  cases hp : parse2 s with
  | none => simp [parseOne, hp] at h
  | some x =>
    obtain ⟨v, r0⟩ := x
    simp only [parseOne, hp, Option.bind_eq_bind, Option.some_bind, Option.pure_def] at h
    split_ifs at h with hc
    simp only [Option.some.injEq, Prod.mk.injEq] at h
    exact ⟨v, by rw [← h.2], hc.1, hc.2, h.1.symm⟩

theorem parseOne_day_inv {p : Parsed} {s : List Char} {q : Parsed} {r : List Char}
    (h : parseOne .day p s = some (q, r)) :
    ∃ v, parse2 s = some (v, r) ∧ 1 ≤ v ∧ v ≤ 31 ∧ q = { p with day := v } := by
  cases hp : parse2 s with
  | none => simp [parseOne, hp] at h
  | some x =>
    obtain ⟨v, r0⟩ := x
    simp only [parseOne, hp, Option.bind_eq_bind, Option.some_bind, Option.pure_def] at h
    split_ifs at h with hc
    simp only [Option.some.injEq, Prod.mk.injEq] at h
    exact ⟨v, by rw [← h.2], hc.1, hc.2, h.1.symm⟩

theorem parseOne_hour_inv {p : Parsed} {s : List Char} {q : Parsed} {r : List Char}
    (h : parseOne .hour p s = some (q, r)) :
    ∃ v, parse2 s = some (v, r) ∧ v ≤ 23 ∧ q = { p with hour := v } := by
  cases hp : parse2 s with
  | none => simp [parseOne, hp] at h
  | some x =>
    obtain ⟨v, r0⟩ := x
    simp only [parseOne, hp, Option.bind_eq_bind, Option.some_bind, Option.pure_def] at h
    split_ifs at h with hc
    simp only [Option.some.injEq, Prod.mk.injEq] at h
    exact ⟨v, by rw [← h.2], hc, h.1.symm⟩

theorem parseOne_minute_inv {p : Parsed} {s : List Char} {q : Parsed} {r : List Char}
    (h : parseOne .minute p s = some (q, r)) :
    ∃ v, parse2 s = some (v, r) ∧ v ≤ 59 ∧ q = { p with minute := v } := by
  cases hp : parse2 s with
  | none => simp [parseOne, hp] at h
  | some x =>
    obtain ⟨v, r0⟩ := x
    simp only [parseOne, hp, Option.bind_eq_bind, Option.some_bind, Option.pure_def] at h
    split_ifs at h with hc
    simp only [Option.some.injEq, Prod.mk.injEq] at h
    exact ⟨v, by rw [← h.2], hc, h.1.symm⟩

theorem parseOne_second_inv {p : Parsed} {s : List Char} {q : Parsed} {r : List Char}
    (h : parseOne .second p s = some (q, r)) :
    ∃ v, parse2 s = some (v, r) ∧ v ≤ 59 ∧ q = { p with second := v } := by
  cases hp : parse2 s with
  | none => simp [parseOne, hp] at h
  | some x =>
    obtain ⟨v, r0⟩ := x
    simp only [parseOne, hp, Option.bind_eq_bind, Option.some_bind, Option.pure_def] at h
    split_ifs at h with hc
    simp only [Option.some.injEq, Prod.mk.injEq] at h
    exact ⟨v, by rw [← h.2], hc, h.1.symm⟩

theorem parseOne_subsec_inv {p : Parsed} {s : List Char} {q : Parsed} {r : List Char}
    (h : parseOne .subsecond p s = some (q, r)) :
    ∃ v, parseSubsec s = some (v, r) ∧ q = { p with nanos := v } := by
  cases hp : parseSubsec s with
  | none => simp [parseOne, hp] at h
  | some x =>
    obtain ⟨v, r0⟩ := x
    simp only [parseOne, hp, Option.bind_eq_bind, Option.some_bind, Option.pure_def,
      Option.some.injEq, Prod.mk.injEq] at h
    exact ⟨v, by rw [← h.2], h.1.symm⟩

theorem parseOne_offsetHour_inv {p : Parsed} {s : List Char} {q : Parsed} {r : List Char}
    (h : parseOne .offsetHour p s = some (q, r)) :
    ∃ a v, s = a :: (s.drop 1) ∧ (a = '+' ∨ a = '-') ∧ parse2 (s.drop 1) = some (v, r) ∧ v ≤ 23
      ∧ q = { p with offNeg := a = '-', offHour := v, hasOffset := true } := by
  match s with
  | [] => simp [parseOne] at h
  | a :: rest =>
    simp only [parseOne] at h
    by_cases hpl : a = '+'
    · rw [if_pos hpl] at h
      cases hp : parse2 rest with
      | none => rw [hp] at h; simp at h
      | some x =>
        obtain ⟨v, r0⟩ := x
        rw [hp] at h
        simp only [Option.bind_eq_bind, Option.some_bind, Option.pure_def] at h
        split_ifs at h with hle
        simp only [Option.some.injEq, Prod.mk.injEq] at h
        refine ⟨a, v, by simp, Or.inl hpl, ?_, hle, ?_⟩
        · rw [List.drop_one, List.tail_cons, ← h.2]
          exact hp
        · rw [← h.1]
          simp [hpl]
    · by_cases hmn : a = '-'
      · rw [if_neg hpl, if_pos hmn] at h
        cases hp : parse2 rest with
        | none => rw [hp] at h; simp at h
        | some x =>
          obtain ⟨v, r0⟩ := x
          rw [hp] at h
          simp only [Option.bind_eq_bind, Option.some_bind, Option.pure_def] at h
          split_ifs at h with hle
          simp only [Option.some.injEq, Prod.mk.injEq] at h
          refine ⟨a, v, by simp, Or.inr hmn, ?_, hle, ?_⟩
          · rw [List.drop_one, List.tail_cons, ← h.2]
            exact hp
          · rw [← h.1]
            simp [hmn]
      · rw [if_neg hpl, if_neg hmn] at h
        exact absurd h (by simp)

theorem parseOne_offsetMinute_inv {p : Parsed} {s : List Char} {q : Parsed} {r : List Char}
    (h : parseOne .offsetMinute p s = some (q, r)) :
    ∃ v, parse2 s = some (v, r) ∧ v ≤ 59
      ∧ q = { p with offMinute := v, hasOffset := true } := by
  cases hp : parse2 s with
  | none => simp [parseOne, hp] at h
  | some x =>
    obtain ⟨v, r0⟩ := x
    simp only [parseOne, hp, Option.bind_eq_bind, Option.some_bind, Option.pure_def] at h
    split_ifs at h with hc
    simp only [Option.some.injEq, Prod.mk.injEq] at h
    exact ⟨v, by rw [← h.2], hc, h.1.symm⟩

theorem parseOne_lit_inv {d : Char} {p : Parsed} {s : List Char} {q : Parsed} {r : List Char}
    (h : parseOne (.lit d) p s = some (q, r)) : s = d :: r ∧ q = p := by
  match s with
  | [] => simp [parseOne] at h
  | a :: rest =>
    simp only [parseOne] at h
    split_ifs at h with hc
    simp only [Option.some.injEq, Prod.mk.injEq] at h
    exact ⟨by rw [hc, h.2], h.1.symm⟩

/-! Consumed-input accounting, field bounds, and untouched fields. -/

theorem parseOne_split {i : Item} {p : Parsed} {s : List Char} {q : Parsed} {r : List Char}
    (ha : itemAscii i = true) (h : parseOne i p s = some (q, r)) :
    ∃ t, s = t ++ r ∧ byteLen t = t.length ∧ itemMinLen i ≤ t.length := by
  cases i with
  | year =>
    obtain ⟨v, hp, -, -⟩ := parseOne_year_inv h
    obtain ⟨-, t, hs, hb, hm⟩ := parseYearNum_inv hp
    exact ⟨t, hs, hb, by simp only [itemMinLen]; omega⟩
  | month =>
    obtain ⟨v, hp, _, _, _⟩ := parseOne_month_inv h
    obtain ⟨a, b, hs, da, db, _⟩ := parse2_inv hp
    exact ⟨[a, b], hs, by simp [charBytes_of_digit da, charBytes_of_digit db],
      by simp [itemMinLen]⟩
  | day =>
    obtain ⟨v, hp, _, _, _⟩ := parseOne_day_inv h
    obtain ⟨a, b, hs, da, db, _⟩ := parse2_inv hp
    exact ⟨[a, b], hs, by simp [charBytes_of_digit da, charBytes_of_digit db],
      by simp [itemMinLen]⟩
  | hour =>
    obtain ⟨v, hp, _, _⟩ := parseOne_hour_inv h
    obtain ⟨a, b, hs, da, db, _⟩ := parse2_inv hp
    exact ⟨[a, b], hs, by simp [charBytes_of_digit da, charBytes_of_digit db],
      by simp [itemMinLen]⟩
  | minute =>
    obtain ⟨v, hp, _, _⟩ := parseOne_minute_inv h
    obtain ⟨a, b, hs, da, db, _⟩ := parse2_inv hp
    exact ⟨[a, b], hs, by simp [charBytes_of_digit da, charBytes_of_digit db],
      by simp [itemMinLen]⟩
  | second =>
    obtain ⟨v, hp, _, _⟩ := parseOne_second_inv h
    obtain ⟨a, b, hs, da, db, _⟩ := parse2_inv hp
    exact ⟨[a, b], hs, by simp [charBytes_of_digit da, charBytes_of_digit db],
      by simp [itemMinLen]⟩
  | subsecond =>
    obtain ⟨v, hp, _⟩ := parseOne_subsec_inv h
    obtain ⟨ds, hs, hd, h1, h9, _⟩ := parseSubsec_inv hp
    exact ⟨ds, hs, byteLen_eq_length_of_digits hd, by simpa [itemMinLen] using h1⟩
  | offsetHour =>
    obtain ⟨a, v, hs, hsign, hp, _, _⟩ := parseOne_offsetHour_inv h
    obtain ⟨b, c, hs2, db, dc, _⟩ := parse2_inv hp
    refine ⟨[a, b, c], ?_, ?_, by simp [itemMinLen]⟩
    · rw [hs, hs2]
      simp
    · have hca : charBytes a = 1 := by rcases hsign with h1 | h1 <;> rw [h1] <;> decide
      simp [hca, charBytes_of_digit db, charBytes_of_digit dc]
  | offsetMinute =>
    obtain ⟨v, hp, _, _⟩ := parseOne_offsetMinute_inv h
    obtain ⟨a, b, hs, da, db, _⟩ := parse2_inv hp
    exact ⟨[a, b], hs, by simp [charBytes_of_digit da, charBytes_of_digit db],
      by simp [itemMinLen]⟩
  | lit d =>
    obtain ⟨hs, _⟩ := parseOne_lit_inv h
    have hcd : charBytes d = 1 := by simpa [itemAscii] using ha
    exact ⟨[d], hs, by simp [hcd], by simp [itemMinLen]⟩

theorem parseRun_split {items : List Item} {p : Parsed} {s : List Char} {q : Parsed}
    {r : List Char} (ha : items.all itemAscii = true) (h : parseRun items p s = some (q, r)) :
    ∃ t, s = t ++ r ∧ byteLen t = t.length ∧ minLen items ≤ t.length := by
  induction items generalizing p s with
  | nil =>
    simp only [parseRun, Option.some.injEq, Prod.mk.injEq] at h
    exact ⟨[], by simp [h.2], by simp, by simp [minLen]⟩
  | cons i is ih =>
    simp only [List.all_cons, Bool.and_eq_true] at ha
    simp only [parseRun] at h
    cases hp : parseOne i p s with
    | none => rw [hp] at h; simp at h
    | some x =>
      obtain ⟨p2, r2⟩ := x
      rw [hp] at h
      simp only [Option.some_bind] at h
      obtain ⟨t1, hs1, hb1, hm1⟩ := parseOne_split ha.1 hp
      obtain ⟨t2, hs2, hb2, hm2⟩ := ih ha.2 h
      refine ⟨t1 ++ t2, ?_, by simp [hb1, hb2], ?_⟩
      · rw [hs1, hs2, List.append_assoc]
      · simp only [minLen, List.map_cons, List.sum_cons, List.length_append] at hm2 ⊢
        omega

theorem parseOne_ok {i : Item} {p : Parsed} {s : List Char} {q : Parsed} {r : List Char}
    (h : parseOne i p s = some (q, r)) (hp : ParsedOk p) : ParsedOk q := by
  obtain ⟨hy, hm1, hm2, hd1, hd2, hh, hmi, hse, hna, hoh, hom⟩ := hp
  cases i with
  | year =>
    obtain ⟨v, _, hv, hq⟩ := parseOne_year_inv h
    subst hq
    exact ⟨hv, hm1, hm2, hd1, hd2, hh, hmi, hse, hna, hoh, hom⟩
  | month =>
    obtain ⟨v, _, hv1, hv2, hq⟩ := parseOne_month_inv h
    subst hq
    exact ⟨hy, hv1, hv2, hd1, hd2, hh, hmi, hse, hna, hoh, hom⟩
  | day =>
    obtain ⟨v, _, hv1, hv2, hq⟩ := parseOne_day_inv h
    subst hq
    exact ⟨hy, hm1, hm2, hv1, hv2, hh, hmi, hse, hna, hoh, hom⟩
  | hour =>
    obtain ⟨v, _, hv, hq⟩ := parseOne_hour_inv h
    subst hq
    exact ⟨hy, hm1, hm2, hd1, hd2, hv, hmi, hse, hna, hoh, hom⟩
  | minute =>
    obtain ⟨v, _, hv, hq⟩ := parseOne_minute_inv h
    subst hq
    exact ⟨hy, hm1, hm2, hd1, hd2, hh, hv, hse, hna, hoh, hom⟩
  | second =>
    obtain ⟨v, _, hv, hq⟩ := parseOne_second_inv h
    subst hq
    exact ⟨hy, hm1, hm2, hd1, hd2, hh, hmi, hv, hna, hoh, hom⟩
  | subsecond =>
    obtain ⟨v, hps, hq⟩ := parseOne_subsec_inv h
    obtain ⟨ds, _, hd, h1, h9, hveq⟩ := parseSubsec_inv hps
    subst hq
    refine ⟨hy, hm1, hm2, hd1, hd2, hh, hmi, hse, ?_, hoh, hom⟩
    show v < 10 ^ 9
    calc v = digitsVal ds * 10 ^ (9 - ds.length) := hveq
      _ < 10 ^ ds.length * 10 ^ (9 - ds.length) :=
        (Nat.mul_lt_mul_right (Nat.pos_pow_of_pos _ (by norm_num))).mpr (digitsVal_lt hd)
      _ = 10 ^ 9 := by
        rw [← pow_add]
        congr 1
        omega
  | offsetHour =>
    obtain ⟨a, v, _, _, _, hv, hq⟩ := parseOne_offsetHour_inv h
    subst hq
    exact ⟨hy, hm1, hm2, hd1, hd2, hh, hmi, hse, hna, hv, hom⟩
  | offsetMinute =>
    obtain ⟨v, _, hv, hq⟩ := parseOne_offsetMinute_inv h
    subst hq
    exact ⟨hy, hm1, hm2, hd1, hd2, hh, hmi, hse, hna, hoh, hv⟩
  | lit d =>
    obtain ⟨_, hq⟩ := parseOne_lit_inv h
    subst hq
    exact ⟨hy, hm1, hm2, hd1, hd2, hh, hmi, hse, hna, hoh, hom⟩

theorem parseRun_ok {items : List Item} {p : Parsed} {s : List Char} {q : Parsed}
    {r : List Char} (h : parseRun items p s = some (q, r)) (hp : ParsedOk p) : ParsedOk q := by
  induction items generalizing p s with
  | nil =>
    simp only [parseRun, Option.some.injEq, Prod.mk.injEq] at h
    rw [← h.1]
    exact hp
  | cons i is ih =>
    simp only [parseRun] at h
    cases hp1 : parseOne i p s with
    | none => rw [hp1] at h; simp at h
    | some x =>
      rw [hp1] at h
      simp only [Option.some_bind] at h
      exact ih h (parseOne_ok hp1 hp)

theorem parsedOk_default : ParsedOk {} := by
  unfold ParsedOk
  norm_num

theorem parseOne_nanos_eq {i : Item} {p : Parsed} {s : List Char} {q : Parsed} {r : List Char}
    (hi : i ≠ Item.subsecond) (h : parseOne i p s = some (q, r)) : q.nanos = p.nanos := by
  cases i with
  | year => obtain ⟨v, _, _, hq⟩ := parseOne_year_inv h; rw [hq]
  | month => obtain ⟨v, _, _, _, hq⟩ := parseOne_month_inv h; rw [hq]
  | day => obtain ⟨v, _, _, _, hq⟩ := parseOne_day_inv h; rw [hq]
  | hour => obtain ⟨v, _, _, hq⟩ := parseOne_hour_inv h; rw [hq]
  | minute => obtain ⟨v, _, _, hq⟩ := parseOne_minute_inv h; rw [hq]
  | second => obtain ⟨v, _, _, hq⟩ := parseOne_second_inv h; rw [hq]
  | subsecond => exact absurd rfl hi
  | offsetHour => obtain ⟨a, v, _, _, _, _, hq⟩ := parseOne_offsetHour_inv h; rw [hq]
  | offsetMinute => obtain ⟨v, _, _, hq⟩ := parseOne_offsetMinute_inv h; rw [hq]
  | lit d => obtain ⟨_, hq⟩ := parseOne_lit_inv h; rw [hq]

theorem parseRun_nanos_eq {items : List Item} {p : Parsed} {s : List Char} {q : Parsed}
    {r : List Char} (hi : Item.subsecond ∉ items) (h : parseRun items p s = some (q, r)) :
    q.nanos = p.nanos := by
  induction items generalizing p s with
  | nil =>
    simp only [parseRun, Option.some.injEq, Prod.mk.injEq] at h
    rw [← h.1]
  | cons i is ih =>
    simp only [parseRun] at h
    cases hp1 : parseOne i p s with
    | none => rw [hp1] at h; simp at h
    | some x =>
      rw [hp1] at h
      simp only [Option.some_bind] at h
      have hne : i ≠ Item.subsecond := fun he => hi (by rw [he]; exact List.mem_cons_self _ _)
      have hni : Item.subsecond ∉ is := fun he => hi (List.mem_cons_of_mem _ he)
      rw [ih hni h, parseOne_nanos_eq hne hp1]

/-! Parsing back a canonically formatted value. -/

theorem daysInMonth_le (y : Int) (m : Nat) : daysInMonth y m ≤ 31 := by
  unfold daysInMonth
  split <;> first | omega | split_ifs <;> omega

theorem parseRun_DATE (y : Int) (mo d : Nat) (hy0 : 0 ≤ y) (hy : y ≤ 9999) (hmo1 : 1 ≤ mo)
    (hmo2 : mo ≤ 12) (hd1 : 1 ≤ d) (hd2 : d ≤ 31) (r : List Char) :
    parseRun DATE_FORMAT {} (padW 4 y.natAbs ++ '-' :: (padW 2 mo ++ '-' :: (padW 2 d ++ r)))
      = some (⟨y, mo, d, 0, 0, 0, 0, false, 0, 0, false⟩, r) := by
  have hy4 : y.natAbs ≤ 9999 := by omega
  simp [DATE_FORMAT, parseRun, parseOne, parseYearNum_pos hy4, Int.natAbs_of_nonneg hy0,
    parse2_padW (show mo ≤ 99 by omega), parse2_padW (show d ≤ 99 by omega), hmo1, hmo2, hd1, hd2]

theorem parseRun_DATE_neg (y : Int) (mo d : Nat) (hy0 : y < 0) (hy : y.natAbs ≤ 9999)
    (hmo1 : 1 ≤ mo) (hmo2 : mo ≤ 12) (hd1 : 1 ≤ d) (hd2 : d ≤ 31) (r : List Char) :
    parseRun DATE_FORMAT {}
      ('-' :: (padW 4 y.natAbs ++ '-' :: (padW 2 mo ++ '-' :: (padW 2 d ++ r))))
      = some (⟨y, mo, d, 0, 0, 0, 0, false, 0, 0, false⟩, r) := by
  simp [DATE_FORMAT, parseRun, parseOne, parseYearNum_neg hy, abs_of_neg hy0,
    parse2_padW (show mo ≤ 99 by omega), parse2_padW (show d ≤ 99 by omega), hmo1, hmo2, hd1, hd2]

theorem parseRun_P (y : Int) (mo d h mi se : Nat) (hy0 : 0 ≤ y) (hy : y ≤ 9999)
    (hmo1 : 1 ≤ mo) (hmo2 : mo ≤ 12) (hd1 : 1 ≤ d) (hd2 : d ≤ 31) (hh : h ≤ 23)
    (hmi : mi ≤ 59) (hse : se ≤ 59) (r : List Char) :
    parseRun PRIMITIVE_DATE_TIME_FORMAT {}
      (padW 4 y.natAbs ++ '-' :: (padW 2 mo ++ '-' :: (padW 2 d ++ ' ' :: (padW 2 h ++ ':' ::
        (padW 2 mi ++ ':' :: (padW 2 se ++ r))))))
      = some (⟨y, mo, d, h, mi, se, 0, false, 0, 0, false⟩, r) := by
  have hy4 : y.natAbs ≤ 9999 := by omega
  simp [PRIMITIVE_DATE_TIME_FORMAT, parseRun, parseOne, parseYearNum_pos hy4,
    Int.natAbs_of_nonneg hy0,
    parse2_padW (show mo ≤ 99 by omega), parse2_padW (show d ≤ 99 by omega),
    parse2_padW (show h ≤ 99 by omega), parse2_padW (show mi ≤ 99 by omega),
    parse2_padW (show se ≤ 99 by omega), hmo1, hmo2, hd1, hd2, hh, hmi, hse]

theorem parseRun_OFFSET_TAIL (p : Parsed) (off : Int) (hoff : off.natAbs ≤ 1439)
    (r : List Char) :
    parseRun OFFSET_TAIL p
      ((if off < 0 then '-' else '+') :: (padW 2 (off.natAbs / 60) ++ ':' ::
        (padW 2 (off.natAbs % 60) ++ r)))
      = some ({ p with offNeg := decide (off < 0), offHour := off.natAbs / 60,
                       offMinute := off.natAbs % 60, hasOffset := true }, r) := by
  by_cases hneg : off < 0 <;>
    simp [OFFSET_TAIL, parseRun, parseOne, hneg,
      parse2_padW (show off.natAbs / 60 ≤ 99 by omega),
      parse2_padW (show off.natAbs % 60 ≤ 99 by omega),
      show off.natAbs / 60 ≤ 23 by omega, show off.natAbs % 60 ≤ 59 by omega]

theorem parseRun_TIME_SS (h mi se na : Nat) (hh : h ≤ 23) (hmi : mi ≤ 59) (hse : se ≤ 59)
    (hna : na < 10 ^ 9) :
    parseRun TIME_FORMAT_SECONDS_SUBSECONDS {}
      (padW 2 h ++ ':' :: (padW 2 mi ++ ':' :: (padW 2 se ++ '.' :: subsecChars na)))
      = some (⟨0, 1, 1, h, mi, se, na, false, 0, 0, false⟩, []) := by
  obtain ⟨e1, e2, e3, e4⟩ := stripW_spec 9 na (by omega) hna
  have hps : parseSubsec (subsecChars na) = some (na, []) := by
    unfold subsecChars
    rw [parseSubsec_pad e2 e3 e4, e1]
  simp [TIME_FORMAT_SECONDS_SUBSECONDS, TIME_FORMAT_SECONDS, parseRun, parseOne,
    parse2_padW (show h ≤ 99 by omega), parse2_padW (show mi ≤ 99 by omega),
    parse2_padW (show se ≤ 99 by omega), hh, hmi, hse, hps]

/-! The canonical encodings, written out. -/

theorem dateToSql_eq (d : Date) :
    Date.toSql d = (if d.year < 0 then ['-'] else []) ++ (padW 4 d.year.natAbs ++ '-' ::
      (padW 2 d.month ++ '-' :: padW 2 d.day)) := by
  simp [Date.toSql, formatWith, DATE_FORMAT, formatOne, Date.fields]

theorem timeToSql_eq (t : Time) :
    Time.toSql t = padW 2 t.hour ++ ':' :: (padW 2 t.minute ++ ':' ::
      (padW 2 t.second ++ '.' :: subsecChars t.nanos)) := by
  simp [Time.toSql, formatWith, TIME_FORMAT_SECONDS_SUBSECONDS, TIME_FORMAT_SECONDS, formatOne,
    Time.fields]

theorem pdtToSql_eq (v : PrimitiveDateTime) :
    PrimitiveDateTime.toSql v = (if v.date.year < 0 then ['-'] else []) ++
      (padW 4 v.date.year.natAbs ++ '-' :: (padW 2 v.date.month ++ '-' ::
        (padW 2 v.date.day ++ ' ' :: (padW 2 v.time.hour ++ ':' ::
          (padW 2 v.time.minute ++ ':' :: (padW 2 v.time.second ++ [])))))) := by
  simp [PrimitiveDateTime.toSql, formatWith, PRIMITIVE_DATE_TIME_FORMAT, formatOne,
    PrimitiveDateTime.fields]

theorem odtToSql_eq (v : OffsetDateTime) :
    OffsetDateTime.toSql v = (if v.dateTime.date.year < 0 then ['-'] else []) ++
      (padW 4 v.dateTime.date.year.natAbs ++ '-' ::
        (padW 2 v.dateTime.date.month ++ '-' :: (padW 2 v.dateTime.date.day ++ ' ' ::
          (padW 2 v.dateTime.time.hour ++ ':' :: (padW 2 v.dateTime.time.minute ++ ':' ::
            (padW 2 v.dateTime.time.second ++ (if v.offMinutes < 0 then '-' else '+') ::
              (padW 2 (v.offMinutes.natAbs / 60) ++ ':' ::
                (padW 2 (v.offMinutes.natAbs % 60) ++ [])))))))) := by
  simp [OffsetDateTime.toSql, formatWith, OFFSET_DATE_TIME_FORMAT, PRIMITIVE_DATE_TIME_FORMAT,
    OFFSET_TAIL, formatOne, OffsetDateTime.fields]

/-! Structural probes of the canonical encodings. -/

theorem get10_P (y mo d : Nat) (rest : List Char) :
    (padW 4 y ++ '-' :: (padW 2 mo ++ '-' :: (padW 2 d ++ ' ' :: rest))).get? 10
      = some ' ' := by
  rw [padW_four, padW_two, padW_two]
  rfl

theorem byteLen_P_core (y mo d h mi se : Nat) (rest : List Char) :
    byteLen (padW 4 y ++ '-' :: (padW 2 mo ++ '-' :: (padW 2 d ++ ' ' :: (padW 2 h ++ ':' ::
      (padW 2 mi ++ ':' :: (padW 2 se ++ rest)))))) = 19 + byteLen rest := by
  simp [byteLen_padW, show charBytes ' ' = 1 from by decide,
    show charBytes ':' = 1 from by decide, show charBytes '-' = 1 from by decide]
  omega

theorem getLast_pad2 (se : Nat) :
    (padW 2 se ++ ([] : List Char)).getLast? = some (digitChar (se % 10)) := by
  rw [List.append_nil, padW_two]
  rfl

theorem beq_digitChar_Z (k : Nat) : (some (digitChar k) == some 'Z') = false := by
  rw [beq_eq_false_iff_ne]
  intro hcon
  exact digitChar_ne_Z k (by injection hcon)

theorem getLast_P_pdt (y mo d h mi se : Nat) :
    (padW 4 y ++ '-' :: (padW 2 mo ++ '-' :: (padW 2 d ++ ' ' :: (padW 2 h ++ ':' ::
      (padW 2 mi ++ ':' :: (padW 2 se ++ [])))))).getLast? = some (digitChar (se % 10)) := by
  rw [padW_four, padW_two, padW_two, padW_two, padW_two, padW_two]
  rfl

theorem getLast_P_odt (y mo d h mi se oh om : Nat) (c : Char) :
    (padW 4 y ++ '-' :: (padW 2 mo ++ '-' :: (padW 2 d ++ ' ' :: (padW 2 h ++ ':' ::
      (padW 2 mi ++ ':' :: (padW 2 se ++ c :: (padW 2 oh ++ ':' ::
        (padW 2 om ++ [])))))))).getLast? = some (digitChar (om % 10)) := by
  rw [padW_four, padW_two, padW_two, padW_two, padW_two, padW_two, padW_two, padW_two]
  rfl

/-! Reduction of `column_result` once the classifier has fired. -/

theorem timeColumnResult_classified {s : List Char} {fmt : List Item}
    (h : timeClassify (byteLen s) = some fmt) :
    Time.columnResult s = (match Time.parse s fmt with
      | some v => .ok v
      | none => .error .parseFailure) := by
  unfold Time.columnResult
  rw [h]

theorem pdtColumnResult_classified {s : List Char} {fmt : List Item}
    (h : pdtClassify (byteLen s) (hasT s) (hasZ s) = some fmt) :
    PrimitiveDateTime.columnResult s = (match PrimitiveDateTime.parse s fmt with
      | some v => .ok v
      | none => .error .parseFailure) := by
  unfold PrimitiveDateTime.columnResult
  rw [h]

theorem odtColumnResult_classified {s : List Char} {fmt : List Item}
    (h : odtClassify (byteLen s) (hasT s) (hasZ s) = some fmt) :
    OffsetDateTime.columnResult s
      = if byteLen s < 25 then
          (match PrimitiveDateTime.parse s fmt with
            | some v => .ok (assumeUtc v)
            | none => .error .parseFailure)
        else
          (match OffsetDateTime.parse s fmt with
            | some v => .ok v
            | none => .error .parseFailure) := by
  unfold OffsetDateTime.columnResult
  rw [h]

/-! The four canonical round trips. -/

theorem date_roundtripS {d : Date} (hv : validDateS d) :
    Date.columnResult (Date.toSql d) = .ok d := by
  obtain ⟨hy, hm1, hm2, hd1, hd2⟩ := hv
  have hd31 : d.day ≤ 31 := le_trans hd2 (daysInMonth_le _ _)
  by_cases hneg : d.year < 0
  · have hrun := parseRun_DATE_neg d.year d.month d.day hneg hy hm1 hm2 hd1 hd31 []
    rw [List.append_nil] at hrun
    unfold Date.columnResult Date.parse runFormat
    rw [dateToSql_eq, if_pos hneg, List.singleton_append, hrun]
    simp [buildDate, hd2]
  · have hrun := parseRun_DATE d.year d.month d.day (by omega) (by omega) hm1 hm2 hd1 hd31 []
    rw [List.append_nil] at hrun
    unfold Date.columnResult Date.parse runFormat
    rw [dateToSql_eq, if_neg hneg, List.nil_append, hrun]
    simp [buildDate, hd2]

theorem date_roundtrip {d : Date} (hv : validDate d) :
    Date.columnResult (Date.toSql d) = .ok d := by
  obtain ⟨h0, hy, hm1, hm2, hd1, hd2⟩ := hv
  exact date_roundtripS ⟨by omega, hm1, hm2, hd1, hd2⟩

theorem time_roundtrip {t : Time} (hv : validTime t) (hdvd : (10 : Nat) ^ 6 ∣ t.nanos) :
    Time.columnResult (Time.toSql t) = .ok t := by
  obtain ⟨hh, hmi, hse, hna⟩ := hv
  obtain ⟨e1, e2, e3, e4⟩ := stripW_spec 9 t.nanos (by omega) hna
  have hk3 : (stripW t.nanos 9).2 ≤ 3 :=
    stripW_le 9 t.nanos 3 (by omega) (by omega) (by simpa using hdvd)
  have hsub : byteLen (subsecChars t.nanos) = (stripW t.nanos 9).2 := by
    unfold subsecChars
    exact byteLen_padW _ _
  have hbl : byteLen (Time.toSql t) = 9 + (stripW t.nanos 9).2 := by
    rw [timeToSql_eq]
    simp [byteLen_padW, hsub, show charBytes ':' = 1 from by decide,
      show charBytes '.' = 1 from by decide]
    omega
  have hcls : timeClassify (byteLen (Time.toSql t)) = some TIME_FORMAT_SECONDS_SUBSECONDS := by
    rw [hbl]
    have hk : (stripW t.nanos 9).2 = 1 ∨ (stripW t.nanos 9).2 = 2 ∨ (stripW t.nanos 9).2 = 3 := by
      omega
    rcases hk with h1 | h1 | h1 <;> rw [h1] <;> decide
  have hrun := parseRun_TIME_SS t.hour t.minute t.second t.nanos hh hmi hse hna
  rw [timeColumnResult_classified hcls]
  unfold Time.parse runFormat
  rw [timeToSql_eq, hrun]
  simp [buildTime]

theorem pdt_roundtrip {v : PrimitiveDateTime} (hvd : validDate v.date) (hvt : validTime v.time)
    (h0 : v.time.nanos = 0) :
    PrimitiveDateTime.columnResult (PrimitiveDateTime.toSql v) = .ok v := by
  obtain ⟨⟨y, mo, dd⟩, ⟨hr, mi, se, na⟩⟩ := v
  simp only at h0
  subst h0
  obtain ⟨hy0, hy, hm1, hm2, hd1, hd2⟩ := hvd
  obtain ⟨hh, hmi, hse, -⟩ := hvt
  simp only at hy0 hy hm1 hm2 hd1 hd2 hh hmi hse
  have hd31 : dd ≤ 31 := le_trans hd2 (daysInMonth_le _ _)
  have henc : PrimitiveDateTime.toSql ⟨⟨y, mo, dd⟩, ⟨hr, mi, se, 0⟩⟩
      = padW 4 y.natAbs ++ '-' :: (padW 2 mo ++ '-' :: (padW 2 dd ++ ' ' :: (padW 2 hr ++ ':' ::
        (padW 2 mi ++ ':' :: (padW 2 se ++ []))))) := by
    rw [pdtToSql_eq]
    simp [show ¬ (y < 0) from by omega]
  have hbl : byteLen (PrimitiveDateTime.toSql ⟨⟨y, mo, dd⟩, ⟨hr, mi, se, 0⟩⟩) = 19 := by
    rw [henc, byteLen_P_core]
    simp
  have ht : hasT (PrimitiveDateTime.toSql ⟨⟨y, mo, dd⟩, ⟨hr, mi, se, 0⟩⟩) = false := by
    unfold hasT
    rw [henc, get10_P]
    decide
  have hz : hasZ (PrimitiveDateTime.toSql ⟨⟨y, mo, dd⟩, ⟨hr, mi, se, 0⟩⟩) = false := by
    unfold hasZ
    rw [henc]
    simp only [getLast_P_pdt]
    exact beq_digitChar_Z _
  have hrun := parseRun_P y mo dd hr mi se hy0 hy hm1 hm2 hd1 hd31 hh hmi hse []
  have hcls : pdtClassify (byteLen (PrimitiveDateTime.toSql ⟨⟨y, mo, dd⟩, ⟨hr, mi, se, 0⟩⟩))
      (hasT (PrimitiveDateTime.toSql ⟨⟨y, mo, dd⟩, ⟨hr, mi, se, 0⟩⟩))
      (hasZ (PrimitiveDateTime.toSql ⟨⟨y, mo, dd⟩, ⟨hr, mi, se, 0⟩⟩))
      = some PRIMITIVE_DATE_TIME_FORMAT := by
    rw [hbl, ht, hz]
    decide
  rw [pdtColumnResult_classified hcls]
  unfold PrimitiveDateTime.parse runFormat
  rw [henc, hrun]
  simp [buildPDT, buildDate, buildTime, hd2]

theorem odt_roundtrip {v : OffsetDateTime} (hvd : validDate v.dateTime.date)
    (hvt : validTime v.dateTime.time) (h0 : v.dateTime.time.nanos = 0)
    (hoff : v.offMinutes.natAbs ≤ 1439) :
    OffsetDateTime.columnResult (OffsetDateTime.toSql v) = .ok v := by
  obtain ⟨⟨⟨y, mo, dd⟩, ⟨hr, mi, se, na⟩⟩, off⟩ := v
  simp only at h0 hoff
  subst h0
  obtain ⟨hy0, hy, hm1, hm2, hd1, hd2⟩ := hvd
  obtain ⟨hh, hmi, hse, -⟩ := hvt
  simp only at hy0 hy hm1 hm2 hd1 hd2 hh hmi hse
  have hd31 : dd ≤ 31 := le_trans hd2 (daysInMonth_le _ _)
  have hsc : charBytes (if off < 0 then '-' else '+') = 1 := by
    split_ifs <;> decide
  have henc : OffsetDateTime.toSql ⟨⟨⟨y, mo, dd⟩, ⟨hr, mi, se, 0⟩⟩, off⟩
      = padW 4 y.natAbs ++ '-' :: (padW 2 mo ++ '-' :: (padW 2 dd ++ ' ' :: (padW 2 hr ++ ':' ::
        (padW 2 mi ++ ':' :: (padW 2 se ++ (if off < 0 then '-' else '+') ::
          (padW 2 (off.natAbs / 60) ++ ':' :: (padW 2 (off.natAbs % 60) ++ []))))))) := by
    rw [odtToSql_eq]
    simp [show ¬ (y < 0) from by omega]
  have hbl : byteLen (OffsetDateTime.toSql ⟨⟨⟨y, mo, dd⟩, ⟨hr, mi, se, 0⟩⟩, off⟩) = 25 := by
    rw [henc, byteLen_P_core]
    simp [byteLen_padW, hsc, show charBytes ':' = 1 from by decide]
  have ht : hasT (OffsetDateTime.toSql ⟨⟨⟨y, mo, dd⟩, ⟨hr, mi, se, 0⟩⟩, off⟩) = false := by
    unfold hasT
    rw [henc, get10_P]
    decide
  have hz : hasZ (OffsetDateTime.toSql ⟨⟨⟨y, mo, dd⟩, ⟨hr, mi, se, 0⟩⟩, off⟩) = false := by
    unfold hasZ
    rw [henc]
    simp only [getLast_P_odt]
    exact beq_digitChar_Z _
  have hrunP := parseRun_P y mo dd hr mi se hy0 hy hm1 hm2 hd1 hd31 hh hmi hse
    ((if off < 0 then '-' else '+') :: (padW 2 (off.natAbs / 60)
      ++ ':' :: (padW 2 (off.natAbs % 60) ++ [])))
  have hrunO := parseRun_OFFSET_TAIL
    ⟨y, mo, dd, hr, mi, se, 0, false, 0, 0, false⟩ off hoff []
  have hcls : odtClassify (byteLen (OffsetDateTime.toSql ⟨⟨⟨y, mo, dd⟩, ⟨hr, mi, se, 0⟩⟩, off⟩))
      (hasT (OffsetDateTime.toSql ⟨⟨⟨y, mo, dd⟩, ⟨hr, mi, se, 0⟩⟩, off⟩))
      (hasZ (OffsetDateTime.toSql ⟨⟨⟨y, mo, dd⟩, ⟨hr, mi, se, 0⟩⟩, off⟩))
      = some OFFSET_DATE_TIME_FORMAT := by
    rw [hbl, ht, hz]
    decide
  rw [odtColumnResult_classified hcls, hbl, if_neg (by omega)]
  unfold OffsetDateTime.parse runFormat OFFSET_DATE_TIME_FORMAT
  rw [henc]
  rw [parseRun_append, hrunP]
  simp only [Option.some_bind]
  rw [hrunO]
  have hoffeq : (if off < 0 then (-1 : Int) else 1)
      * ((((off.natAbs / 60 : Nat) : Int)) * 60 + ((off.natAbs % 60 : Nat) : Int)) = off := by
    by_cases hneg : off < 0 <;> simp only [if_pos, if_neg, hneg, ite_true, ite_false] <;> omega
  simp only [buildODT, buildPDT, buildDate, buildTime, offsetOf, Option.some_bind,
    decide_eq_true_eq, if_pos hd2]
  simp only [if_true, Option.map_some]
  rw [hoffeq]
  rfl

/-! Soundness: whatever a decoder accepts satisfies the value
invariants. -/

theorem runFormat_some {items : List Item} {s : List Char} {p : Parsed}
    (h : runFormat items s = some p) : parseRun items {} s = some (p, []) := by
  unfold runFormat at h
  cases hp : parseRun items {} s with
  | none => rw [hp] at h; exact absurd h (by simp)
  | some x =>
    obtain ⟨q, r⟩ := x
    rw [hp] at h
    match r with
    | [] =>
      simp only [Option.some.injEq] at h
      rw [h]
    | c :: t => simp at h

theorem buildPDT_some_valid {p : Parsed} {w : PrimitiveDateTime} (hok : ParsedOk p)
    (h : buildPDT p = some w) :
    validDateS w.date ∧ validTime w.time ∧ w.time.nanos = p.nanos := by
  obtain ⟨hy, hm1, hm2, hd1, hd2, hh, hmi, hse, hna, hoh, hom⟩ := hok
  unfold buildPDT buildDate at h
  split_ifs at h with hle
  · simp only [Option.map_some', Option.some.injEq] at h
    rw [← h]
    exact ⟨⟨hy, hm1, hm2, hd1, hle⟩, ⟨hh, hmi, hse, hna⟩, rfl⟩
  · simp at h

theorem buildODT_some_valid {p : Parsed} {w : OffsetDateTime} (hok : ParsedOk p)
    (h : buildODT p = some w) :
    validDateS w.dateTime.date ∧ validTime w.dateTime.time ∧ w.offMinutes.natAbs ≤ 1439
      ∧ w.dateTime.time.nanos = p.nanos := by
  unfold buildODT at h
  split_ifs at h with hoffs
  cases hb : buildPDT p with
  | none => rw [hb] at h; simp at h
  | some u =>
    rw [hb] at h
    simp only [Option.map_some', Option.some.injEq] at h
    obtain ⟨h1, h2, h3⟩ := buildPDT_some_valid hok hb
    rw [← h]
    refine ⟨h1, h2, ?_, h3⟩
    obtain ⟨-, -, -, -, -, -, -, -, -, hoh, hom⟩ := hok
    unfold offsetOf
    cases p.offNeg <;> simp <;> omega

theorem Date_ok_valid {s : List Char} {v : Date} (h : Date.columnResult s = .ok v) :
    validDateS v := by
  unfold Date.columnResult at h
  cases hp : Date.parse s DATE_FORMAT with
  | none => rw [hp] at h; exact absurd h (by simp)
  | some w =>
    rw [hp] at h
    simp only [Except.ok.injEq] at h
    subst h
    unfold Date.parse at hp
    cases hq : runFormat DATE_FORMAT s with
    | none => rw [hq] at hp; simp at hp
    | some p =>
      rw [hq] at hp
      simp only [Option.some_bind] at hp
      have hok := parseRun_ok (runFormat_some hq) parsedOk_default
      obtain ⟨hy, hm1, hm2, hd1, hd2, -, -, -, -, -, -⟩ := hok
      unfold buildDate at hp
      split_ifs at hp with hle
      simp only [Option.some.injEq] at hp
      rw [← hp]
      exact ⟨hy, hm1, hm2, hd1, hle⟩

theorem timeClassify_inv {n : Nat} {fmt : List Item} (h : timeClassify n = some fmt) :
    (n = 5 ∧ fmt = TIME_FORMAT) ∨ (n = 8 ∧ fmt = TIME_FORMAT_SECONDS)
      ∨ ((n = 10 ∨ n = 11 ∨ n = 12) ∧ fmt = TIME_FORMAT_SECONDS_SUBSECONDS) := by
  unfold timeClassify at h
  split_ifs at h with h5 h8 h10 <;> simp only [Option.some.injEq] at h
  · exact Or.inl ⟨h5, h.symm⟩
  · exact Or.inr (Or.inl ⟨h8, h.symm⟩)
  · exact Or.inr (Or.inr ⟨h10, h.symm⟩)

theorem timeSS_nanos {s : List Char} {p : Parsed}
    (h : parseRun TIME_FORMAT_SECONDS_SUBSECONDS {} s = some (p, []))
    (hb : byteLen s ≤ 12) : (10 : Nat) ^ 6 ∣ p.nanos := by
  rw [show TIME_FORMAT_SECONDS_SUBSECONDS
    = TIME_FORMAT_SECONDS ++ [.lit '.', .subsecond] from rfl, parseRun_append] at h
  cases hA : parseRun TIME_FORMAT_SECONDS {} s with
  | none => rw [hA] at h; simp at h
  | some x =>
    obtain ⟨q1, r1⟩ := x
    rw [hA] at h
    simp only [Option.some_bind] at h
    simp only [parseRun] at h
    cases hL : parseOne (.lit '.') q1 r1 with
    | none => rw [hL] at h; simp at h
    | some x2 =>
      obtain ⟨q2, r2⟩ := x2
      rw [hL] at h
      simp only [Option.some_bind] at h
      cases hS : parseOne .subsecond q2 r2 with
      | none => rw [hS] at h; simp at h
      | some x3 =>
        obtain ⟨q3, r3⟩ := x3
        rw [hS] at h
        simp only [Option.some_bind, Option.some.injEq, Prod.mk.injEq] at h
        obtain ⟨hq3, hr3⟩ := h
        obtain ⟨hdot, hq2⟩ := parseOne_lit_inv hL
        obtain ⟨v, hps, hq3e⟩ := parseOne_subsec_inv hS
        obtain ⟨ds, hr2, hdig, hk1, hk9, hveq⟩ := parseSubsec_inv hps
        obtain ⟨t, hst, hbt, hmt⟩ := parseRun_split (by decide) hA
        have hm8 : minLen TIME_FORMAT_SECONDS = 8 := by decide
        rw [hm8] at hmt
        have hbls : byteLen s = t.length + 1 + ds.length := by
          rw [hst, hdot, hr2, hr3, List.append_nil]
          simp [hbt, byteLen_eq_length_of_digits hdig,
            show charBytes '.' = 1 from by decide]
          omega
        have hds3 : ds.length ≤ 3 := by omega
        rw [← hq3, hq3e]
        show (10 : Nat) ^ 6 ∣ v
        rw [hveq]
        exact Dvd.dvd.mul_left (pow_dvd_pow 10 (by omega)) _

theorem Time_ok_valid {s : List Char} {v : Time} (h : Time.columnResult s = .ok v) :
    validTime v ∧ (10 : Nat) ^ 6 ∣ v.nanos := by
  cases hc : timeClassify (byteLen s) with
  | none =>
    unfold Time.columnResult at h
    rw [hc] at h
    exact absurd h (by simp)
  | some fmt =>
    rw [timeColumnResult_classified hc] at h
    cases hp : Time.parse s fmt with
    | none => rw [hp] at h; exact absurd h (by simp)
    | some w =>
      rw [hp] at h
      simp only [Except.ok.injEq] at h
      subst h
      unfold Time.parse at hp
      cases hq : runFormat fmt s with
      | none => rw [hq] at hp; simp at hp
      | some p =>
        rw [hq] at hp
        simp only [Option.map_some', Option.some.injEq] at hp
        have hrun := runFormat_some hq
        have hok := parseRun_ok hrun parsedOk_default
        obtain ⟨-, -, -, -, -, hh, hmi, hse, hna, -, -⟩ := hok
        have hvt : validTime (buildTime p) := ⟨hh, hmi, hse, hna⟩
        rw [← hp]
        refine ⟨hvt, ?_⟩
        show (10 : Nat) ^ 6 ∣ p.nanos
        rcases timeClassify_inv hc with ⟨hn, hf⟩ | ⟨hn, hf⟩ | ⟨hn, hf⟩
        · subst hf
          rw [parseRun_nanos_eq (by decide) hrun]
          exact Dvd.intro 0 rfl
        · subst hf
          rw [parseRun_nanos_eq (by decide) hrun]
          exact Dvd.intro 0 rfl
        · subst hf
          exact timeSS_nanos hrun (by omega)

theorem PDT_ok_valid {s : List Char} {v : PrimitiveDateTime}
    (h : PrimitiveDateTime.columnResult s = .ok v) : validDateS v.date ∧ validTime v.time := by
  cases hc : pdtClassify (byteLen s) (hasT s) (hasZ s) with
  | none =>
    unfold PrimitiveDateTime.columnResult at h
    rw [hc] at h
    exact absurd h (by simp)
  | some fmt =>
    rw [pdtColumnResult_classified hc] at h
    cases hp : PrimitiveDateTime.parse s fmt with
    | none => rw [hp] at h; exact absurd h (by simp)
    | some w =>
      rw [hp] at h
      simp only [Except.ok.injEq] at h
      subst h
      unfold PrimitiveDateTime.parse at hp
      cases hq : runFormat fmt s with
      | none => rw [hq] at hp; simp at hp
      | some p =>
        rw [hq] at hp
        simp only [Option.some_bind] at hp
        have hok := parseRun_ok (runFormat_some hq) parsedOk_default
        obtain ⟨h1, h2, -⟩ := buildPDT_some_valid hok hp
        exact ⟨h1, h2⟩

theorem ODT_ok_valid {s : List Char} {v : OffsetDateTime}
    (h : OffsetDateTime.columnResult s = .ok v) :
    validDateS v.dateTime.date ∧ validTime v.dateTime.time ∧ v.offMinutes.natAbs ≤ 1439 := by
  cases hc : odtClassify (byteLen s) (hasT s) (hasZ s) with
  | none =>
    unfold OffsetDateTime.columnResult at h
    rw [hc] at h
    exact absurd h (by simp)
  | some fmt =>
    rw [odtColumnResult_classified hc] at h
    split_ifs at h with hprim
    · cases hp : PrimitiveDateTime.parse s fmt with
      | none => rw [hp] at h; exact absurd h (by simp)
      | some w =>
        rw [hp] at h
        simp only [Except.ok.injEq] at h
        subst h
        unfold PrimitiveDateTime.parse at hp
        cases hq : runFormat fmt s with
        | none => rw [hq] at hp; simp at hp
        | some p =>
          rw [hq] at hp
          simp only [Option.some_bind] at hp
          have hok := parseRun_ok (runFormat_some hq) parsedOk_default
          obtain ⟨h1, h2, -⟩ := buildPDT_some_valid hok hp
          exact ⟨h1, h2, by simp [assumeUtc]⟩
    · cases hp : OffsetDateTime.parse s fmt with
      | none => rw [hp] at h; exact absurd h (by simp)
      | some w =>
        rw [hp] at h
        simp only [Except.ok.injEq] at h
        subst h
        unfold OffsetDateTime.parse at hp
        cases hq : runFormat fmt s with
        | none => rw [hq] at hp; simp at hp
        | some p =>
          rw [hq] at hp
          simp only [Option.some_bind] at hp
          have hok := parseRun_ok (runFormat_some hq) parsedOk_default
          obtain ⟨h1, h2, h3, -⟩ := buildODT_some_valid hok hp
          exact ⟨h1, h2, h3⟩

/-- C1: the round trip `column_result (to_sql t) = t` fails for every
timestamp with a nonzero sub-second fraction, because
`OFFSET_DATE_TIME_FORMAT` — the `to_sql` output pattern — contains no
`[subsecond]` component.  The failing input below is the very value the
crate's own test `test_offset_date_time` inserts
(`make_datetime(10_000, 1000)`, i.e. 1970-01-01 02:46:40 UTC and 1000
nanoseconds): encoding yields `"1970-01-01 02:46:40+00:00"`, decoding
that yields the timestamp with the fraction zeroed, a different
instant.  This contradicts the `to_sql` doc comment
(`"YYYY-MM-DD HH:MM:SS.SSS[+-]HH:MM"`) and the test's `assert_eq!`. -/
theorem C1_encode_decode_loses_subsecond :
    OffsetDateTime.toSql ⟨⟨⟨1970, 1, 1⟩, ⟨2, 46, 40, 1000⟩⟩, 0⟩
        = ("1970-01-01 02:46:40+00:00").data
      ∧ OffsetDateTime.columnResult (OffsetDateTime.toSql ⟨⟨⟨1970, 1, 1⟩, ⟨2, 46, 40, 1000⟩⟩, 0⟩)
        = .ok ⟨⟨⟨1970, 1, 1⟩, ⟨2, 46, 40, 0⟩⟩, 0⟩
      ∧ OffsetDateTime.instantNanos ⟨⟨⟨1970, 1, 1⟩, ⟨2, 46, 40, 0⟩⟩, 0⟩
        ≠ OffsetDateTime.instantNanos ⟨⟨⟨1970, 1, 1⟩, ⟨2, 46, 40, 1000⟩⟩, 0⟩ := by
  refine ⟨by decide, by decide, by decide⟩

/-- C6: the three historical variants `"2013-10-07 08:23:19"`,
`"2013-10-07 08:23:19Z"` and `"2013-10-07T08:23:19Z"` all decode as
timezone-aware timestamps to the same value, 2013-10-07 08:23:19 at
offset UTC, whose instant is 1381134199 s after the Unix epoch. -/
theorem C6_equivalent_variants :
    OffsetDateTime.columnResult ("2013-10-07 08:23:19").data
        = .ok ⟨⟨⟨2013, 10, 7⟩, ⟨8, 23, 19, 0⟩⟩, 0⟩
      ∧ OffsetDateTime.columnResult ("2013-10-07 08:23:19Z").data
        = .ok ⟨⟨⟨2013, 10, 7⟩, ⟨8, 23, 19, 0⟩⟩, 0⟩
      ∧ OffsetDateTime.columnResult ("2013-10-07T08:23:19Z").data
        = .ok ⟨⟨⟨2013, 10, 7⟩, ⟨8, 23, 19, 0⟩⟩, 0⟩
      ∧ OffsetDateTime.instantNanos ⟨⟨⟨2013, 10, 7⟩, ⟨8, 23, 19, 0⟩⟩, 0⟩
        = 1381134199 * 1000000000 := by
  refine ⟨by decide, by decide, by decide, by decide⟩

/-- C7: an explicit numeric offset is applied when computing the
absolute instant: `"2013-10-07 04:23:19-04:00"` decodes to the instant
of 2013-10-07 08:23:19 UTC, and `"2013-10-07T04:23:19.120-04:00"` to
the instant of 2013-10-07 08:23:19.120 UTC. -/
theorem C7_offset_applied :
    OffsetDateTime.columnResult ("2013-10-07 04:23:19-04:00").data
        = .ok ⟨⟨⟨2013, 10, 7⟩, ⟨4, 23, 19, 0⟩⟩, -240⟩
      ∧ OffsetDateTime.instantNanos ⟨⟨⟨2013, 10, 7⟩, ⟨4, 23, 19, 0⟩⟩, -240⟩
        = OffsetDateTime.instantNanos ⟨⟨⟨2013, 10, 7⟩, ⟨8, 23, 19, 0⟩⟩, 0⟩
      ∧ OffsetDateTime.columnResult ("2013-10-07T04:23:19.120-04:00").data
        = .ok ⟨⟨⟨2013, 10, 7⟩, ⟨4, 23, 19, 120000000⟩⟩, -240⟩
      ∧ OffsetDateTime.instantNanos ⟨⟨⟨2013, 10, 7⟩, ⟨4, 23, 19, 120000000⟩⟩, -240⟩
        = OffsetDateTime.instantNanos ⟨⟨⟨2013, 10, 7⟩, ⟨8, 23, 19, 120000000⟩⟩, 0⟩ := by
  refine ⟨by decide, by decide, by decide, by decide⟩

/-- C2 counterexample: the naive round trip fails for sub-second
fractions.  A `Time` of one nanosecond encodes (via the `digits:1+`
subsecond directive) to the 18-byte `"00:00:00.000000001"`, which the
time decoder rejects outright; and a `PrimitiveDateTime` with fraction
.111 encodes without its fraction, so re-decoding returns a different
value. -/
theorem C2_counterexample :
    Time.toSql ⟨0, 0, 0, 1⟩ = ("00:00:00.000000001").data
      ∧ Time.columnResult (Time.toSql ⟨0, 0, 0, 1⟩)
        = .error (.unknownTime (("00:00:00.000000001").data))
      ∧ PrimitiveDateTime.toSql ⟨⟨2013, 10, 7⟩, ⟨8, 23, 19, 111000000⟩⟩
        = ("2013-10-07 08:23:19").data
      ∧ PrimitiveDateTime.columnResult
          (PrimitiveDateTime.toSql ⟨⟨2013, 10, 7⟩, ⟨8, 23, 19, 111000000⟩⟩)
        = .ok ⟨⟨2013, 10, 7⟩, ⟨8, 23, 19, 0⟩⟩
      ∧ (⟨⟨2013, 10, 7⟩, ⟨8, 23, 19, 0⟩⟩ : PrimitiveDateTime)
        ≠ ⟨⟨2013, 10, 7⟩, ⟨8, 23, 19, 111000000⟩⟩ := by
  refine ⟨by decide, by decide, by decide, by decide, by decide⟩

/-- C3 counterexample: `"2013-10-07 08:23:19.111"` is accepted by the
naive-timestamp decoder, but encoding its result and decoding again
yields the value with the fraction zeroed, not a value equal to the
first decode's result.  Further, the `[year]` component accepts an
optional leading sign, so the 23-byte `"-2013-10-07 08:23:19.00"` is
also accepted; its result re-encodes to the 20-byte
`"-2013-10-07 08:23:19"`, whose (length, T, Z) triple has no table
entry, so the second decode errors outright. -/
theorem C3_counterexample :
    PrimitiveDateTime.columnResult ("2013-10-07 08:23:19.111").data
        = .ok ⟨⟨2013, 10, 7⟩, ⟨8, 23, 19, 111000000⟩⟩
      ∧ PrimitiveDateTime.columnResult
          (PrimitiveDateTime.toSql ⟨⟨2013, 10, 7⟩, ⟨8, 23, 19, 111000000⟩⟩)
        = .ok ⟨⟨2013, 10, 7⟩, ⟨8, 23, 19, 0⟩⟩
      ∧ (⟨⟨2013, 10, 7⟩, ⟨8, 23, 19, 0⟩⟩ : PrimitiveDateTime)
        ≠ ⟨⟨2013, 10, 7⟩, ⟨8, 23, 19, 111000000⟩⟩
      ∧ PrimitiveDateTime.columnResult ("-2013-10-07 08:23:19.00").data
        = .ok ⟨⟨-2013, 10, 7⟩, ⟨8, 23, 19, 0⟩⟩
      ∧ PrimitiveDateTime.toSql ⟨⟨-2013, 10, 7⟩, ⟨8, 23, 19, 0⟩⟩
        = ("-2013-10-07 08:23:19").data
      ∧ PrimitiveDateTime.columnResult ("-2013-10-07 08:23:19").data
        = .error (.unknownDate (("-2013-10-07 08:23:19").data)) := by
  refine ⟨by decide, by decide, by decide, by decide, by decide, by decide⟩

/-- C5 counterexample: `"2013-10-07 08:23:19Z"` (length 20, trailing
`Z`) is an accepted input whose pattern carries a `Z`, yet the code
does not parse it "directly with the offset-or-Z pattern": the pattern
contains no offset component, so direct `OffsetDateTime` parsing fails
(`InsufficientInformation`), and the spec-worded procedure
`odtColumnResultSpec` errors where the code succeeds via the naive
parse + assume-UTC path taken for every `s.len() < 25`. -/
theorem C5_counterexample :
    OffsetDateTime.columnResult ("2013-10-07 08:23:19Z").data
        = .ok ⟨⟨⟨2013, 10, 7⟩, ⟨8, 23, 19, 0⟩⟩, 0⟩
      ∧ OffsetDateTime.parse ("2013-10-07 08:23:19Z").data PRIMITIVE_DATE_TIME_FORMAT_Z = none
      ∧ odtColumnResultSpec ("2013-10-07 08:23:19Z").data = .error .parseFailure := by
  refine ⟨by decide, by decide, by decide⟩

/-- C10: every decoder is total on arbitrary text: on any character
list it returns a value or an error, and in particular the empty
string, strings shorter than 11 characters, and strings whose UTF-8
byte length differs from their character count (the probes at index 10
and at the last character are `Option` lookups) produce format errors,
never out-of-bounds access. -/
theorem C10_total :
    (∀ s : List Char, (∃ v, OffsetDateTime.columnResult s = .ok v)
        ∨ ∃ e, OffsetDateTime.columnResult s = .error e)
      ∧ (∀ s : List Char, (∃ v, PrimitiveDateTime.columnResult s = .ok v)
        ∨ ∃ e, PrimitiveDateTime.columnResult s = .error e)
      ∧ (∀ s : List Char, (∃ v, Time.columnResult s = .ok v)
        ∨ ∃ e, Time.columnResult s = .error e)
      ∧ (∀ s : List Char, (∃ v, Date.columnResult s = .ok v)
        ∨ ∃ e, Date.columnResult s = .error e)
      ∧ OffsetDateTime.columnResult [] = .error (.unknownDate [])
      ∧ PrimitiveDateTime.columnResult [] = .error (.unknownDate [])
      ∧ Time.columnResult [] = .error (.unknownTime [])
      ∧ Date.columnResult [] = .error .parseFailure
      ∧ Time.columnResult ("08:23:19.1").data = .ok ⟨8, 23, 19, 100000000⟩
      ∧ byteLen ("é2013-10-0708:23:1").data ≠ (("é2013-10-0708:23:1").data).length
      ∧ OffsetDateTime.columnResult ("é2013-10-0708:23:1").data = .error .parseFailure := by
  refine ⟨?_, ?_, ?_, ?_, by decide, by decide, by decide, by decide, by decide, by decide,
    by decide⟩
  · intro s
    cases h : OffsetDateTime.columnResult s with
    | ok v => exact Or.inl ⟨v, rfl⟩
    | error e => exact Or.inr ⟨e, rfl⟩
  · intro s
    cases h : PrimitiveDateTime.columnResult s with
    | ok v => exact Or.inl ⟨v, rfl⟩
    | error e => exact Or.inr ⟨e, rfl⟩
  · intro s
    cases h : Time.columnResult s with
    | ok v => exact Or.inl ⟨v, rfl⟩
    | error e => exact Or.inr ⟨e, rfl⟩
  · intro s
    cases h : Date.columnResult s with
    | ok v => exact Or.inl ⟨v, rfl⟩
    | error e => exact Or.inr ⟨e, rfl⟩

/-- C4: the timezone-aware decoder classifies by `(byte length,
character 10 is T, last character is Z)` alone: each of the fourteen
listed triples selects exactly the pattern of the spec's table, every
triple outside the list classifies to nothing, and on any string whose
triple is unlisted the decoder returns the error carrying
`"Unknown date format: "` followed by the offending string. -/
theorem C4_classifier :
    (odtClassify 29 false false = some OFFSET_DATE_TIME_FORMAT_SUBSECONDS
      ∧ odtClassify 29 true false = some OFFSET_DATE_TIME_FORMAT_T_SUBSECONDS
      ∧ odtClassify 26 false false = some LEGACY_DATE_TIME_FORMAT
      ∧ odtClassify 25 false false = some OFFSET_DATE_TIME_FORMAT
      ∧ odtClassify 25 true false = some OFFSET_DATE_TIME_FORMAT_T
      ∧ odtClassify 24 false true = some PRIMITIVE_DATE_TIME_FORMAT_SUBSECONDS_Z
      ∧ odtClassify 24 true true = some PRIMITIVE_DATE_TIME_FORMAT_T_SUBSECONDS_Z
      ∧ odtClassify 24 true false = some PRIMITIVE_DATE_TIME_FORMAT_T_SUBSECONDS
      ∧ odtClassify 23 false false = some PRIMITIVE_DATE_TIME_FORMAT_SUBSECONDS
      ∧ odtClassify 23 true false = some PRIMITIVE_DATE_TIME_FORMAT_T_SUBSECONDS
      ∧ odtClassify 20 false true = some PRIMITIVE_DATE_TIME_FORMAT_Z
      ∧ odtClassify 20 true true = some PRIMITIVE_DATE_TIME_FORMAT_T_Z
      ∧ odtClassify 19 false false = some PRIMITIVE_DATE_TIME_FORMAT
      ∧ odtClassify 19 true false = some PRIMITIVE_DATE_TIME_FORMAT_T)
      ∧ (∀ len t z, (len, t, z) ∉ odtListed → odtClassify len t z = none)
      ∧ (∀ s : List Char, odtClassify (byteLen s) (hasT s) (hasZ s) = none →
          OffsetDateTime.columnResult s = .error (.unknownDate s)
            ∧ (DecodeError.unknownDate s).message = ("Unknown date format: ").data ++ s) := by
  refine ⟨by decide, ?_, ?_⟩
  · intro len t z h
    by_cases h29 : len = 29
    · subst h29; revert h; revert z; revert t; decide
    by_cases h26 : len = 26
    · subst h26; revert h; revert z; revert t; decide
    by_cases h25 : len = 25
    · subst h25; revert h; revert z; revert t; decide
    by_cases h24 : len = 24
    · subst h24; revert h; revert z; revert t; decide
    by_cases h23 : len = 23
    · subst h23; revert h; revert z; revert t; decide
    by_cases h20 : len = 20
    · subst h20; revert h; revert z; revert t; decide
    by_cases h19 : len = 19
    · subst h19; revert h; revert z; revert t; decide
    simp [odtClassify, h29, h26, h25, h24, h23, h20, h19]
  · intro s h
    refine ⟨?_, rfl⟩
    simp only [OffsetDateTime.columnResult, h]

/-- C9: the time-of-day decoder dispatches purely on byte length:
5 selects `HH:MM`, 8 selects `HH:MM:SS`, 10–12 select the sub-second
pattern, and every other length is rejected with the unknown-time
format error (in particular 6, 7 and 9).  The three sample strings
parse to the expected times of day. -/
theorem C9_time_length_dispatch :
    timeClassify 5 = some TIME_FORMAT
      ∧ timeClassify 8 = some TIME_FORMAT_SECONDS
      ∧ timeClassify 10 = some TIME_FORMAT_SECONDS_SUBSECONDS
      ∧ timeClassify 11 = some TIME_FORMAT_SECONDS_SUBSECONDS
      ∧ timeClassify 12 = some TIME_FORMAT_SECONDS_SUBSECONDS
      ∧ (∀ n, n ∉ ([5, 8, 10, 11, 12] : List Nat) → timeClassify n = none)
      ∧ (∀ s : List Char, timeClassify (byteLen s) = none →
          Time.columnResult s = .error (.unknownTime s))
      ∧ Time.columnResult ("08:23").data = .ok ⟨8, 23, 0, 0⟩
      ∧ Time.columnResult ("08:23:19").data = .ok ⟨8, 23, 19, 0⟩
      ∧ Time.columnResult ("08:23:19.111").data = .ok ⟨8, 23, 19, 111000000⟩ := by
  refine ⟨by decide, by decide, by decide, by decide, by decide, ?_, ?_, by decide, by decide,
    by decide⟩
  · intro n h
    by_cases h5 : n = 5
    · subst h5; exact absurd (by decide) h
    by_cases h8 : n = 8
    · subst h8; exact absurd (by decide) h
    by_cases h10 : n = 10
    · subst h10; exact absurd (by decide) h
    by_cases h11 : n = 11
    · subst h11; exact absurd (by decide) h
    by_cases h12 : n = 12
    · subst h12; exact absurd (by decide) h
    simp [timeClassify, h5, h8, h10, h11, h12]
  · intro s h
    simp only [Time.columnResult, h]

theorem pdtClassify_z_false {len : Nat} {t z : Bool} {fmt : List Item}
    (hlen : len = 19 ∨ len = 23) (hc : pdtClassify len t z = some fmt) : z = false := by
  rcases hlen with h | h <;> subst h <;> cases t <;> cases z <;>
    first | rfl | simp [pdtClassify] at hc

theorem pdtClassify_push_z {len : Nat} {t : Bool} {fmt : List Item}
    (hlen : len = 19 ∨ len = 23) (hc : pdtClassify len t false = some fmt) :
    pdtClassify (len + 1) t true = some (fmt ++ [Item.lit 'Z']) := by
  rcases hlen with h | h <;> subst h <;> cases t <;>
    (simp [pdtClassify] at hc; subst hc; decide)

theorem pdtClassify_ascii {len : Nat} {t z : Bool} {fmt : List Item}
    (hc : pdtClassify len t z = some fmt) : fmt.all itemAscii = true := by
  unfold pdtClassify at hc
  split_ifs at hc <;> simp only [Option.some.injEq] at hc <;> rw [← hc] <;> decide

/-- C8: a trailing `Z` is accepted by the naive-timestamp decoder and
never changes the produced value: whenever the decoder accepts a string
of byte length 19 or 23 (the Z-less table rows), appending `'Z'` gives
a string it also accepts, with an equal `PrimitiveDateTime` result. -/
theorem C8_trailing_z_irrelevant (s : List Char) (v : PrimitiveDateTime)
    (hlen : byteLen s = 19 ∨ byteLen s = 23)
    (h : PrimitiveDateTime.columnResult s = .ok v) :
    PrimitiveDateTime.columnResult (s ++ ['Z']) = .ok v := by
  cases hc : pdtClassify (byteLen s) (hasT s) (hasZ s) with
  | none =>
    unfold PrimitiveDateTime.columnResult at h
    rw [hc] at h
    exact absurd h (by simp)
  | some fmt =>
    rw [pdtColumnResult_classified hc] at h
    cases hp : PrimitiveDateTime.parse s fmt with
    | none => rw [hp] at h; exact absurd h (by simp)
    | some w =>
      rw [hp] at h
      simp only [Except.ok.injEq] at h
      subst h
      unfold PrimitiveDateTime.parse at hp
      cases hq : runFormat fmt s with
      | none => rw [hq] at hp; simp at hp
      | some p =>
        rw [hq] at hp
        simp only [Option.some_bind] at hp
        have hrun := runFormat_some hq
        have hz0 : hasZ s = false := pdtClassify_z_false hlen hc
        have hcz : pdtClassify (byteLen s + 1) (hasT s) true = some (fmt ++ [Item.lit 'Z']) :=
          pdtClassify_push_z hlen (hz0 ▸ hc)
        have hext := parseRun_extend (show isDigitCh 'Z' = false from by decide) hrun
        have hfull : runFormat (fmt ++ [Item.lit 'Z']) (s ++ ['Z']) = some p := by
          unfold runFormat
          rw [parseRun_append, hext]
          simp [parseRun, parseOne]
        obtain ⟨t, hst, hbt, -⟩ := parseRun_split (pdtClassify_ascii hc) hrun
        rw [List.append_nil] at hst
        have hsl : byteLen s = s.length := by
          rw [hst]
          exact hbt
        have h10 : 10 < s.length := by rcases hlen with hb | hb <;> omega
        have hbz : byteLen (s ++ ['Z']) = byteLen s + 1 := by
          rw [byteLen_append]
          simp [byteLen, show charBytes 'Z' = 1 from by decide]
        have htz : hasT (s ++ ['Z']) = hasT s := by
          unfold hasT
          rw [List.get?_append h10]
        have hzz : hasZ (s ++ ['Z']) = true := by
          unfold hasZ
          rw [List.getLast?_concat]
          rfl
        have hcz2 : pdtClassify (byteLen (s ++ ['Z'])) (hasT (s ++ ['Z'])) (hasZ (s ++ ['Z']))
            = some (fmt ++ [Item.lit 'Z']) := by
          rw [hbz, htz, hzz]
          exact hcz
        rw [pdtColumnResult_classified hcz2]
        unfold PrimitiveDateTime.parse
        rw [hfull]
        simp only [Option.some_bind]
        rw [hp]

/-- Witness for C8 at the concrete accepted input
`"2013-10-07 08:23:19"`. -/
theorem C8_trailing_z_irrelevant_witness :
    PrimitiveDateTime.columnResult (("2013-10-07 08:23:19").data ++ ['Z'])
      = .ok ⟨⟨2013, 10, 7⟩, ⟨8, 23, 19, 0⟩⟩ :=
  C8_trailing_z_irrelevant ("2013-10-07 08:23:19").data ⟨⟨2013, 10, 7⟩, ⟨8, 23, 19, 0⟩⟩
    (by decide) (by decide)

/-- C2 (amended): the naive round trip `column_result (to_sql v) = v`
holds for every valid `Date`; for every valid `Time` whose sub-second
fraction is a whole number of milliseconds (nanoseconds divisible by
10^6), including nonzero ones; and for every valid `PrimitiveDateTime`
whose sub-second fraction is zero.  (As stated, with fractions of any
precision up to nanoseconds, the claim is false: see the
counterexample.) -/
theorem C2_amended_roundtrips :
    (∀ d : Date, validDate d → Date.columnResult (Date.toSql d) = .ok d)
      ∧ (∀ t : Time, validTime t → (10 : Nat) ^ 6 ∣ t.nanos →
          Time.columnResult (Time.toSql t) = .ok t)
      ∧ (∀ v : PrimitiveDateTime, validDate v.date → validTime v.time → v.time.nanos = 0 →
          PrimitiveDateTime.columnResult (PrimitiveDateTime.toSql v) = .ok v) :=
  ⟨fun _ hv => date_roundtrip hv, fun _ hv hd => time_roundtrip hv hd,
    fun _ h1 h2 h3 => pdt_roundtrip h1 h2 h3⟩

/-- Witness for C2 (amended) at concrete values, among them a `Time`
with the nonzero fraction .111. -/
theorem C2_amended_roundtrips_witness :
    Date.columnResult (Date.toSql ⟨2013, 10, 7⟩) = .ok ⟨2013, 10, 7⟩
      ∧ Time.columnResult (Time.toSql ⟨8, 23, 19, 111000000⟩) = .ok ⟨8, 23, 19, 111000000⟩
      ∧ PrimitiveDateTime.columnResult (PrimitiveDateTime.toSql ⟨⟨2013, 10, 7⟩, ⟨8, 23, 19, 0⟩⟩)
        = .ok ⟨⟨2013, 10, 7⟩, ⟨8, 23, 19, 0⟩⟩ :=
  ⟨C2_amended_roundtrips.1 ⟨2013, 10, 7⟩ (by decide),
    C2_amended_roundtrips.2.1 ⟨8, 23, 19, 111000000⟩ (by decide) (by decide),
    C2_amended_roundtrips.2.2 ⟨⟨2013, 10, 7⟩, ⟨8, 23, 19, 0⟩⟩ (by decide) (by decide) rfl⟩

/-- C3 (amended): re-encoding a decoded value and decoding again gives
the same value, for every accepted input — unconditionally for the date
and time-of-day decoders, and for the two timestamp decoders whenever
the first decode's result carries a zero sub-second fraction and a
non-negative year.  (As stated, for every accepted input of all four
kinds, the claim is false: see the counterexample, both for a nonzero
fraction — the output patterns drop it — and for a negative year, whose
`'-'`-prefixed re-encoding has a length with no table entry.) -/
theorem C3_amended_idempotent :
    (∀ (s : List Char) (v : Date), Date.columnResult s = .ok v →
        Date.columnResult (Date.toSql v) = .ok v)
      ∧ (∀ (s : List Char) (v : Time), Time.columnResult s = .ok v →
          Time.columnResult (Time.toSql v) = .ok v)
      ∧ (∀ (s : List Char) (v : PrimitiveDateTime), PrimitiveDateTime.columnResult s = .ok v →
          v.time.nanos = 0 → 0 ≤ v.date.year →
          PrimitiveDateTime.columnResult (PrimitiveDateTime.toSql v) = .ok v)
      ∧ (∀ (s : List Char) (v : OffsetDateTime), OffsetDateTime.columnResult s = .ok v →
          v.dateTime.time.nanos = 0 → 0 ≤ v.dateTime.date.year →
          OffsetDateTime.columnResult (OffsetDateTime.toSql v) = .ok v) := by
  refine ⟨?_, ?_, ?_, ?_⟩
  · intro s v h
    exact date_roundtripS (Date_ok_valid h)
  · intro s v h
    obtain ⟨h1, h2⟩ := Time_ok_valid h
    exact time_roundtrip h1 h2
  · intro s v h h0 hy0
    obtain ⟨ha, hb, hc, hd, he⟩ := (PDT_ok_valid h).1
    exact pdt_roundtrip ⟨hy0, by omega, hb, hc, hd, he⟩ (PDT_ok_valid h).2 h0
  · intro s v h h0 hy0
    obtain ⟨h1, h2, h3⟩ := ODT_ok_valid h
    obtain ⟨ha, hb, hc, hd, he⟩ := h1
    exact odt_roundtrip ⟨hy0, by omega, hb, hc, hd, he⟩ h2 h0 h3

/-- Witness for C3 (amended) at concrete accepted inputs of all four
kinds, among them an aware timestamp with an explicit `-04:00` offset. -/
theorem C3_amended_idempotent_witness :
    Date.columnResult (Date.toSql ⟨2013, 10, 7⟩) = .ok ⟨2013, 10, 7⟩
      ∧ Time.columnResult (Time.toSql ⟨8, 23, 19, 111000000⟩) = .ok ⟨8, 23, 19, 111000000⟩
      ∧ PrimitiveDateTime.columnResult (PrimitiveDateTime.toSql ⟨⟨2013, 10, 7⟩, ⟨8, 23, 19, 0⟩⟩)
        = .ok ⟨⟨2013, 10, 7⟩, ⟨8, 23, 19, 0⟩⟩
      ∧ OffsetDateTime.columnResult
          (OffsetDateTime.toSql ⟨⟨⟨2013, 10, 7⟩, ⟨4, 23, 19, 0⟩⟩, -240⟩)
        = .ok ⟨⟨⟨2013, 10, 7⟩, ⟨4, 23, 19, 0⟩⟩, -240⟩ :=
  ⟨C3_amended_idempotent.1 ("2013-10-07").data ⟨2013, 10, 7⟩ (by decide),
    C3_amended_idempotent.2.1 ("08:23:19.111").data ⟨8, 23, 19, 111000000⟩ (by decide),
    C3_amended_idempotent.2.2.1 ("2013-10-07 08:23:19").data ⟨⟨2013, 10, 7⟩, ⟨8, 23, 19, 0⟩⟩
      (by decide) rfl (by decide),
    C3_amended_idempotent.2.2.2 ("2013-10-07 04:23:19-04:00").data
      ⟨⟨⟨2013, 10, 7⟩, ⟨4, 23, 19, 0⟩⟩, -240⟩ (by decide) rfl (by decide)⟩

/-- C5 (amended): the timezone-aware decoder parses as a naive
timestamp and assumes UTC exactly when `s.len() < 25` — that is, for
lengths 19, 20, 23 and 24 including the trailing-`Z` forms, whose `Z`
is consumed as a literal — and the resulting value then carries offset
UTC (0); only for lengths 25, 26 and 29 does it parse directly with the
selected offset pattern.  (The claim as stated — direct
`OffsetDateTime` parsing for the `Z` forms — is false: see the
counterexample.) -/
theorem C5_amended_primitive_dispatch :
    (∀ (s : List Char) (v : OffsetDateTime), OffsetDateTime.columnResult s = .ok v →
        byteLen s < 25 →
        v.offMinutes = 0 ∧ ∃ fmt p, odtClassify (byteLen s) (hasT s) (hasZ s) = some fmt
          ∧ PrimitiveDateTime.parse s fmt = some p ∧ v = assumeUtc p)
      ∧ (∀ (s : List Char) (v : OffsetDateTime), OffsetDateTime.columnResult s = .ok v →
          25 ≤ byteLen s →
          ∃ fmt, odtClassify (byteLen s) (hasT s) (hasZ s) = some fmt
            ∧ OffsetDateTime.parse s fmt = some v) := by
  constructor
  · intro s v h hlen
    cases hc : odtClassify (byteLen s) (hasT s) (hasZ s) with
    | none =>
      unfold OffsetDateTime.columnResult at h
      rw [hc] at h
      exact absurd h (by simp)
    | some fmt =>
      rw [odtColumnResult_classified hc, if_pos hlen] at h
      cases hp : PrimitiveDateTime.parse s fmt with
      | none => rw [hp] at h; exact absurd h (by simp)
      | some p =>
        rw [hp] at h
        simp only [Except.ok.injEq] at h
        exact ⟨by rw [← h]; rfl, fmt, p, rfl, hp, h.symm⟩
  · intro s v h hlen
    cases hc : odtClassify (byteLen s) (hasT s) (hasZ s) with
    | none =>
      unfold OffsetDateTime.columnResult at h
      rw [hc] at h
      exact absurd h (by simp)
    | some fmt =>
      rw [odtColumnResult_classified hc, if_neg (by omega)] at h
      cases hp : OffsetDateTime.parse s fmt with
      | none => rw [hp] at h; exact absurd h (by simp)
      | some w =>
        rw [hp] at h
        simp only [Except.ok.injEq] at h
        exact ⟨fmt, rfl, by rw [hp, h]⟩

/-- Witness for C5 (amended) at a short (`Z`-suffixed, length 20) and a
long (explicit-offset, length 25) accepted input. -/
theorem C5_amended_primitive_dispatch_witness :
    ((⟨⟨⟨2013, 10, 7⟩, ⟨8, 23, 19, 0⟩⟩, 0⟩ : OffsetDateTime).offMinutes = 0
      ∧ ∃ fmt p, odtClassify (byteLen ("2013-10-07 08:23:19Z").data)
            (hasT ("2013-10-07 08:23:19Z").data) (hasZ ("2013-10-07 08:23:19Z").data) = some fmt
          ∧ PrimitiveDateTime.parse ("2013-10-07 08:23:19Z").data fmt = some p
          ∧ (⟨⟨⟨2013, 10, 7⟩, ⟨8, 23, 19, 0⟩⟩, 0⟩ : OffsetDateTime) = assumeUtc p)
      ∧ ∃ fmt, odtClassify (byteLen ("2013-10-07 04:23:19-04:00").data)
            (hasT ("2013-10-07 04:23:19-04:00").data)
            (hasZ ("2013-10-07 04:23:19-04:00").data) = some fmt
          ∧ OffsetDateTime.parse ("2013-10-07 04:23:19-04:00").data fmt
            = some ⟨⟨⟨2013, 10, 7⟩, ⟨4, 23, 19, 0⟩⟩, -240⟩ :=
  ⟨C5_amended_primitive_dispatch.1 ("2013-10-07 08:23:19Z").data
      ⟨⟨⟨2013, 10, 7⟩, ⟨8, 23, 19, 0⟩⟩, 0⟩ (by decide) (by decide),
    C5_amended_primitive_dispatch.2 ("2013-10-07 04:23:19-04:00").data
      ⟨⟨⟨2013, 10, 7⟩, ⟨4, 23, 19, 0⟩⟩, -240⟩ (by decide) (by decide)⟩

/-- Witness for C4 at an unlisted triple (length 21) and a string of
that length. -/
theorem C4_classifier_witness :
    odtClassify 21 false false = none
      ∧ OffsetDateTime.columnResult ("202401011200000000021").data
        = .error (.unknownDate (("202401011200000000021").data))
      ∧ (DecodeError.unknownDate (("202401011200000000021").data)).message
        = ("Unknown date format: ").data ++ ("202401011200000000021").data :=
  ⟨C4_classifier.2.1 21 false false (by decide),
    (C4_classifier.2.2 ("202401011200000000021").data (by decide)).1,
    (C4_classifier.2.2 ("202401011200000000021").data (by decide)).2⟩

/-- Witness for C9 at the rejected lengths 6, 7 and 9. -/
theorem C9_time_length_dispatch_witness :
    Time.columnResult ("08:23:1").data = .error (.unknownTime (("08:23:1").data))
      ∧ timeClassify 6 = none ∧ timeClassify 7 = none ∧ timeClassify 9 = none :=
  ⟨(C9_time_length_dispatch.2.2.2.2.2.2.1) ("08:23:1").data (by decide),
    C9_time_length_dispatch.2.2.2.2.2.1 6 (by decide),
    C9_time_length_dispatch.2.2.2.2.2.1 7 (by decide),
    C9_time_length_dispatch.2.2.2.2.2.1 9 (by decide)⟩

end Rusqlite
